import Mathlib

/-! The rewriting engine of go-include, `internal/include/include.go`.

A shallow embedding of `Include`, `fileContentAsString`, `fileContentAsBytes` and `readFile`.

* Go strings and byte slices are lists of byte values (`Bytes`).
* The collaborators that are not part of the repository (the Go parser, `filepath`, `os.ReadFile`,
  `imports.Process`) are fields of an environment `Env`.
* The syntax tree is the part of `go/ast` the engine looks at, with `Pos`/`End` computed the way
  `go/ast` computes them (`token.Pos` is the byte offset plus one).
* A Go runtime fault (slice bounds out of range, index out of range) is an outcome of its own.
-/

namespace GoInclude

/-- A Go string or byte slice: the list of its byte values. -/
abbrev Bytes := List Nat

/-- The bytes of an ASCII string constant. -/
def ascii (s : String) : Bytes := s.toList.map Char.toNat

/-! ## The syntax tree (`go/ast`) -/

/-- `ast.Comment`: position of the leading slash and the comment text. -/
structure Comment where
  Slash : Nat
  Text : Bytes

/-- `(*ast.Comment).Pos`. -/
def Comment.Pos (c : Comment) : Nat := c.Slash

/-- `(*ast.Comment).End`: `token.Pos(int(c.Slash) + len(c.Text))`. -/
def Comment.End (c : Comment) : Nat := c.Slash + c.Text.length

/-- `ast.CommentGroup`. -/
structure CommentGroup where
  List : List Comment

/-- `ast.Expr`, with the node kinds the engine distinguishes, and binary expressions as an
example of a kind with operands; every other kind is `other`. -/
inductive Expr where
  | ident (namePos : Nat) (name : Bytes)
  | basicLit (valuePos : Nat) (value : Bytes)
  | selectorExpr (x : Expr) (sel : Bytes)
  | callExpr (fn : Expr) (args : List Expr) (rparen : Nat)
  | binaryExpr (x : Expr) (y : Expr)
  | other (pos : Nat)

/-- `Pos()` of an expression: a call starts where its function starts, a selector and a binary
expression where their first operand starts. -/
def Expr.Pos : Expr → Nat
  | .ident p _ => p
  | .basicLit p _ => p
  | .selectorExpr x _ => x.Pos
  | .callExpr fn _ _ => fn.Pos
  | .binaryExpr x _ => x.Pos
  | .other p => p

/-- `ast.Spec`: a value spec with its initializers, or an import or type spec. -/
inductive Spec where
  | valueSpec (values : List Expr)
  | otherSpec

/-- `ast.Decl`: a general declaration with its specs, or a function or bad declaration. -/
inductive Decl where
  | genDecl (specs : List Spec)
  | otherDecl

/-- `ast.File`: all comment groups of the file and its top-level declarations. -/
structure File where
  Comments : List CommentGroup
  Decls : List Decl

/-! ## Options, environment, Go primitives -/

/-- The build tag used when none is given. -/
def DEFAULT_BUILD_TAG : Bytes := ascii "include"

/-- Options passed when including files. -/
structure Options where
  BuildTag : Bytes
  WorkingDir : Bytes

/-- The collaborators outside the repository. An error is its message. -/
structure Env where
  /-- `parser.ParseFile` on (filename, source). -/
  parseFile : Bytes → Bytes → Except Bytes File
  /-- `filepath.Join`. -/
  join : Bytes → Bytes → Bytes
  /-- `filepath.Abs`. -/
  abs : Bytes → Except Bytes Bytes
  /-- `os.ReadFile`. -/
  osReadFile : Bytes → Except Bytes Bytes
  /-- `imports.Process` on (filename, assembled buffer). -/
  process : Bytes → Bytes → Except Bytes Bytes

/-- `strings.Contains`. -/
def Contains : Bytes → Bytes → Bool
  | [], sub => sub.isEmpty
  | c :: s, sub => sub.isPrefixOf (c :: s) || Contains s sub

/-- The slice expression `source[lo:hi]`; `none` is the runtime fault "slice bounds out of
range". (Go allows `hi` up to the capacity; the model takes capacity = length.) -/
def slice (source : Bytes) (lo hi : Int) : Option Bytes :=
  if 0 ≤ lo ∧ lo ≤ hi ∧ hi ≤ source.length then
    some ((source.drop lo.toNat).take (hi.toNat - lo.toNat))
  else none

/-- Digits of `strconv.Itoa`, most significant first, pushed in front of `acc`. -/
def itoaAux : Nat → Nat → Bytes → Bytes
  | 0, _, acc => acc
  | fuel + 1, n, acc =>
    if n < 10 then (48 + n) :: acc else itoaAux fuel (n / 10) ((48 + n % 10) :: acc)

/-- `strconv.Itoa` on a non-negative integer. -/
def Itoa (n : Nat) : Bytes := itoaAux (n + 1) n []

/-- `strings.ReplaceAll(s, "\x60", "\\\x60")`: every backquote gets a backslash in front. -/
def escapeBackquotes : Bytes → Bytes
  | [] => []
  | c :: s => if c = 96 then 92 :: 96 :: escapeBackquotes s else c :: escapeBackquotes s

/-! ## `readFile` and the two encoders -/

/-- `readFile`. -/
def readFile (env : Env) (filename : Bytes) (options : Options) : Except Bytes Bytes :=
  let filename := if options.WorkingDir ≠ [] then env.join options.WorkingDir filename else filename
  match env.abs filename with
  | .error err => .error (ascii "error reading " ++ filename ++ ascii ": " ++ err)
  | .ok fqfn =>
    match env.osReadFile fqfn with
    | .error err => .error (ascii "error reading " ++ filename ++ ascii ": " ++ err)
    | .ok content => .ok content

/-- `fileContentAsString`. -/
def fileContentAsString (env : Env) (filename : Bytes) (options : Options) : Except Bytes Bytes :=
  match readFile env filename options with
  | .error err => .error err
  | .ok content => .ok ([96] ++ escapeBackquotes content ++ [96])

/-- The `for i, b := range content` loop of `fileContentAsBytes`, from index `i` on, acting on
the builder. -/
def bytesLoop : Nat → Bytes → Bytes → Bytes
  | _, [], builder => builder
  | i, b :: rest, builder =>
    let builder := builder ++ Itoa b
    let builder := builder ++ [44]
    let builder := if 0 < i ∧ i % 20 = 0 then builder ++ [10] else builder
    bytesLoop (i + 1) rest builder

/-- `fileContentAsBytes`. -/
def fileContentAsBytes (env : Env) (filename : Bytes) (options : Options) : Except Bytes Bytes :=
  match readFile env filename options with
  | .error err => .error err
  | .ok content => .ok (bytesLoop 0 content (ascii "[]byte\x7b\n") ++ ascii "\n\x7d\n")

/-! ## `Include` -/

/-- The variables the callback of `ast.Inspect` works on, and two traces that do not influence
the run: the file names handed to `readFile`, and the bounds of every slice expression
`source[lo:hi]` evaluated, both in order. -/
structure State where
  out : Bytes
  lastWriteOffset : Int
  inspectErr : Option Bytes
  reads : List Bytes
  slices : List (Int × Int)
deriving DecidableEq

/-- How a step of the pass ends: the loop goes on, the callback returned with `inspectErr` set,
or the runtime faulted. -/
inductive Flow where
  | next (st : State)
  | stop (st : State)
  | panic (st : State)
deriving DecidableEq

/-- Sequencing: go on only after `next`. -/
def Flow.bind (r : Flow) (k : State → Flow) : Flow :=
  match r with
  | .next st => k st
  | .stop st => .stop st
  | .panic st => .panic st

/-- A `for _, x := range xs` loop whose body is `step`. -/
def forEach {α : Type} (step : State → α → Flow) : State → List α → Flow
  | st, [] => .next st
  | st, x :: xs => (step st x).bind (fun st1 => forEach step st1 xs)

/-- `out.Write(source[lastWriteOffset : pos-1])`. -/
def writeUpTo (source : Bytes) (st : State) (pos : Nat) : Flow :=
  let lo := st.lastWriteOffset
  let hi := (pos : Int) - 1
  match slice source lo hi with
  | none => .panic { st with slices := st.slices ++ [(lo, hi)] }
  | some seg => .next { st with out := st.out ++ seg, slices := st.slices ++ [(lo, hi)] }

/-- The condition of lines 74-76: the comment text contains one of the three patterns. -/
def isDirective (tag : Bytes) (c : Comment) : Bool :=
  Contains c.Text (ascii "go:build " ++ tag) ||
  Contains c.Text (ascii "+build " ++ tag) ||
  Contains c.Text (ascii "go:generate include")

/-- Body of the loop over the comments of a group (lines 74-79). -/
def commentStep (source tag : Bytes) (st : State) (c : Comment) : Flow :=
  if isDirective tag c then
    (writeUpTo source st c.Pos).bind (fun st1 => .next { st1 with lastWriteOffset := (c.End : Int) })
  else .next st

/-- The loop over the comment groups (lines 72-81). -/
def commentsLoop (source tag : Bytes) (st : State) (groups : List CommentGroup) : Flow :=
  forEach (fun st1 cg => forEach (commentStep source tag) st1 cg.List) st groups

/-- What lines 98-118 let through: a call `include.<sel>(arg)` with exactly one argument. -/
structure Candidate where
  sel : Bytes
  arg : Expr
  pos : Nat
  endPos : Nat

/-- Lines 98-118: the checks after which a value is either skipped or handled as a placeholder. -/
def candidate? (n : Expr) : Option Candidate :=
  match n with
  | .callExpr (.selectorExpr (.ident namePos name) sel) args rparen =>
    if name ≠ ascii "include" then none
    else
      match args with
      | [arg] => some { sel := sel, arg := arg, pos := namePos, endPos := rparen + 1 }
      | _ => none
  | _ => none

/-- The message of lines 123 and 127; the local `filename` is still empty there. -/
def unsupportedArgument (sel : Bytes) : Bytes :=
  ascii "unsupported argument when calling include." ++ sel ++ ascii " in " ++ [] ++
    ascii ": only strings are supported"

/-- The message of line 148. -/
def unsupportedFunction (sel filename : Bytes) : Bytes :=
  ascii "unsupported function call include." ++ sel ++ ascii " in " ++ filename

/-- Lines 152-154. -/
def splice (source : Bytes) (st : State) (c : Candidate) (replacement : Bytes) : Flow :=
  (writeUpTo source st c.pos).bind (fun st1 =>
    .next { st1 with out := st1.out ++ replacement, lastWriteOffset := (c.endPos : Int) })

/-- Lines 133-154: dispatch on the selector name, then splice. -/
def dispatch (env : Env) (options : Options) (source : Bytes) (st : State) (c : Candidate)
    (filename : Bytes) : Flow :=
  if c.sel = ascii "String" then
    let st1 := { st with reads := st.reads ++ [filename] }
    match fileContentAsString env filename options with
    | .error err => .stop { st1 with inspectErr := some err }
    | .ok replacement => splice source st1 c replacement
  else if c.sel = ascii "Bytes" then
    let st1 := { st with reads := st.reads ++ [filename] }
    match fileContentAsBytes env filename options with
    | .error err => .stop { st1 with inspectErr := some err }
    | .ok replacement => splice source st1 c replacement
  else .stop { st with inspectErr := some (unsupportedFunction c.sel filename) }

/-- Lines 120-154 for a candidate call. -/
def processCandidate (env : Env) (options : Options) (source : Bytes) (st : State)
    (c : Candidate) : Flow :=
  match c.arg with
  | .basicLit _ value =>
    match value.head?, value.getLast? with
    | some first, some last =>
      if first ≠ 34 ∨ last ≠ 34 then .stop { st with inspectErr := some (unsupportedArgument c.sel) }
      else
        match slice value 1 ((value.length : Int) - 1) with
        | none => .panic st
        | some filename => dispatch env options source st c filename
    | _, _ => .panic st
  | _ => .stop { st with inspectErr := some (unsupportedArgument c.sel) }

/-- Body of the loop over the values of a value spec (lines 98-154). -/
def processValue (env : Env) (options : Options) (source : Bytes) (st : State) (n : Expr) : Flow :=
  match candidate? n with
  | none => .next st
  | some c => processCandidate env options source st c

/-- Body of the loop over the specs of a declaration (lines 92-155). -/
def processSpec (env : Env) (options : Options) (source : Bytes) (st : State) (s : Spec) : Flow :=
  match s with
  | .valueSpec values => forEach (processValue env options source) st values
  | .otherSpec => .next st

/-- Body of the loop over the declarations (lines 87-156). -/
def processDecl (env : Env) (options : Options) (source : Bytes) (st : State) (d : Decl) : Flow :=
  match d with
  | .genDecl specs => forEach (processSpec env options source) st specs
  | .otherDecl => .next st

/-- The two lines of lines 83-84. -/
def negatedTagLines (tag : Bytes) : Bytes :=
  ascii "//go:build !" ++ tag ++ ascii "\n" ++ (ascii "// +build !" ++ tag ++ ascii "\n")

/-- The callback of `ast.Inspect` on the file node (lines 72-159); `ast.Inspect` calls it once,
as it returns false. -/
def inspectFile (env : Env) (options : Options) (source : Bytes) (st : State) (f : File) : Flow :=
  (commentsLoop source options.BuildTag st f.Comments).bind (fun st1 =>
    forEach (processDecl env options source)
      { st1 with out := st1.out ++ negatedTagLines options.BuildTag } f.Decls)

/-- The header of line 50. -/
def generatedHeader : Bytes := ascii "//Code generated by include. DO NOT EDIT.\n\n"

/-- The state before the pass. -/
def initialState : State :=
  { out := generatedHeader, lastWriteOffset := 0, inspectErr := none, reads := [], slices := [] }

/-- What the pass over a parsed file ends in: the buffer handed to the formatter, the first
error, or a runtime fault; each with the final state. -/
inductive Assembled where
  | buffer (out : Bytes) (st : State)
  | failed (err : Bytes) (st : State)
  | panicked (st : State)
deriving DecidableEq

/-- Lines 48-50 and 58-166 of `Include`, for the parsed file `f`: the pass, the check of
`inspectErr`, and `out.Write(source[lastWriteOffset:])`. -/
def assemble (env : Env) (options : Options) (source : Bytes) (f : File) : Assembled :=
  match inspectFile env options source initialState f with
  | .panic st => .panicked st
  | .next st | .stop st =>
    match st.inspectErr with
    | some err => .failed err st
    | none =>
      let lo := st.lastWriteOffset
      let hi := (source.length : Int)
      match slice source lo hi with
      | none => .panicked { st with slices := st.slices ++ [(lo, hi)] }
      | some tail =>
        .buffer (st.out ++ tail) { st with out := st.out ++ tail, slices := st.slices ++ [(lo, hi)] }

/-- What a call of `Include` ends in: the pair it returns (`nil` is `none`), or a runtime
fault. -/
inductive Result where
  | returned (out : Option Bytes) (err : Option Bytes)
  | panicked
deriving DecidableEq

/-- Lines 168-173: the assembled buffer goes to `imports.Process`. -/
def processImports (env : Env) (filename out : Bytes) : Result :=
  match env.process filename out with
  | .error err => .returned none (some (ascii "failed to process imports: " ++ err))
  | .ok c => .returned (some c) none

/-- Lines 44-46: the tag the pass works with. -/
def withDefaultTag (options : Options) : Options :=
  if options.BuildTag = [] then { options with BuildTag := DEFAULT_BUILD_TAG } else options

/-- `Include`. -/
def Include (env : Env) (filename source : Bytes) (options : Options) : Result :=
  let options := withDefaultTag options
  match env.parseFile filename source with
  | .error err =>
    .returned none (some (ascii "failed to parse source file " ++ filename ++ ascii ": " ++ err))
  | .ok fileAst =>
    match assemble env options source fileAst with
    | .panicked _ => .panicked
    | .failed err _ => .returned none (some err)
    | .buffer out _ => processImports env filename out

/-- `IncludeFile`. -/
def IncludeFile (env : Env) (src : Bytes) (options : Options) : Result :=
  match env.osReadFile src with
  | .error err =>
    .returned none (some (ascii "failed to read source file " ++ src ++ ascii ": " ++ err))
  | .ok content => Include env src content options

/-! ## Decoders and other notions the properties are stated with -/

/-- Remove the opening token `p` from the front of `s`. -/
def dropOpening (p s : Bytes) : Option Bytes :=
  if p.isPrefixOf s then some (s.drop p.length) else none

/-- Remove the closing token `p` from the end of `s`. -/
def dropClosing (p s : Bytes) : Option Bytes :=
  if p.isSuffixOf s then some (s.take (s.length - p.length)) else none

/-- Read a text of comma-terminated decimal integers; `cur` is the integer being read. -/
def parseInts : Option Nat → Bytes → Option (List Nat)
  | none, [] => some []
  | some _, [] => none
  | cur, c :: cs =>
    if 48 ≤ c ∧ c ≤ 57 then parseInts (some (cur.getD 0 * 10 + (c - 48))) cs
    else if c = 44 then
      match cur with
      | some v => (parseInts none cs).map (fun vs => v :: vs)
      | none => none
    else none

/-- Decoding of the array literal: discard the line breaks, remove the opening and the closing
token, read the integers. -/
def decodeBytesLiteral (out : Bytes) : Option (List Nat) :=
  match dropOpening (ascii "[]byte\x7b") (out.filter (fun c => c ≠ 10)) with
  | none => none
  | some t =>
    match dropClosing (ascii "\x7d") t with
    | none => none
    | some body => parseInts none body

/-- What the loop of `fileContentAsBytes` writes for the bytes from index `i` on. -/
def elements : Nat → Bytes → Bytes
  | _, [] => []
  | i, b :: rest =>
    Itoa b ++ [44] ++ (if 0 < i ∧ i % 20 = 0 then [10] else []) ++ elements (i + 1) rest

/-- The value of a digit string read from the left, starting from `v`. -/
def digitsValue (v : Nat) (ds : Bytes) : Nat := ds.foldl (fun v c => v * 10 + (c - 48)) v

/-- The tokens of the array literal without line breaks. -/
def tokens : Bytes → Bytes
  | [] => []
  | b :: rest => Itoa b ++ [44] ++ tokens rest

/-- Scan a Go raw string literal at the front of `lit`: it opens with a backquote and ends at the
next backquote, a backslash has no special meaning. The result is the text in between and the
text after the closing backquote. -/
def scanRawString (lit : Bytes) : Option (Bytes × Bytes) :=
  match lit with
  | 96 :: rest =>
    match rest.dropWhile (fun c => c ≠ 96) with
    | _ :: after => some (rest.takeWhile (fun c => c ≠ 96), after)
    | [] => none
  | _ => none

/-- The value of `lit` read as one Go raw string literal: the text between the backquotes with
the carriage returns discarded; `none` when `lit` is not exactly one raw string literal. -/
def decodeRawString (lit : Bytes) : Option Bytes :=
  match scanRawString lit with
  | some (body, []) => some (body.filter (fun c => c ≠ 13))
  | _ => none

/-- An environment whose file system holds one file, `name`, with the given content. -/
def singleFileEnv (name content : Bytes) (parse : Bytes → Bytes → Except Bytes File) : Env :=
  { parseFile := parse
    join := fun dir file => dir ++ [47] ++ file
    abs := fun path => .ok path
    osReadFile := fun path => if path = name then .ok content else .error (ascii "no such file")
    process := fun _ out => .ok out }

/-- A parser that knows one source text. -/
def parseOnly (source : Bytes) (f : File) : Bytes → Bytes → Except Bytes File :=
  fun _ s => if s = source then .ok f else .error (ascii "syntax error")

/-- Options with every field unset. -/
def noOptions : Options := { BuildTag := [], WorkingDir := [] }

/-- The initializers of the value specs among `specs`, in order. -/
def specsValues : List Spec → List Expr
  | [] => []
  | .valueSpec values :: rest => values ++ specsValues rest
  | .otherSpec :: rest => specsValues rest

/-- The initializers of the top-level value specs of the declarations, in source order. -/
def topLevelValues : List Decl → List Expr
  | [] => []
  | .genDecl specs :: rest => specsValues specs ++ topLevelValues rest
  | .otherDecl :: rest => topLevelValues rest

/-- The state in which the loop over the declarations starts, after a directive pass that ended
in `st`: the negated-tag lines are written. -/
def afterTagLines (tag : Bytes) (st : State) : State :=
  { st with out := st.out ++ negatedTagLines tag }

/-- The call expression `include.<sel>(arg)` that starts at `pos` and whose closing parenthesis
is at `rparen`. -/
def includeCall (pos : Nat) (sel : Bytes) (arg : Expr) (rparen : Nat) : Expr :=
  .callExpr (.selectorExpr (.ident pos (ascii "include")) sel) [arg] rparen

/-! ### Concrete sources with their syntax trees

Positions are those the Go parser assigns: byte offset plus one. -/

/-- A placeholder call followed by a line break and a second declaration. -/
def spliceSource : Bytes := ascii "package p\n\nvar x = include.String(\"f\")\nvar y = 1\n"

/-- The tree of `spliceSource`: the call occupies the offsets 19 to 37. -/
def spliceFile : File :=
  { Comments := []
    Decls := [.genDecl [.valueSpec [includeCall 20 (ascii "String") (.basicLit 35 (ascii "\"f\"")) 38]],
              .genDecl [.valueSpec [.basicLit 48 (ascii "1")]]] }

/-- A build directive on the first line. -/
def directiveSource : Bytes := ascii "//go:build include\n\npackage p\n"

/-- The tree of `directiveSource`: the comment occupies the offsets 0 to 17. -/
def directiveFile : File :=
  { Comments := [{ List := [{ Slash := 1, Text := ascii "//go:build include" }] }]
    Decls := [] }

/-- A placeholder call with a generate directive after it. -/
def lateDirectiveSource : Bytes :=
  ascii "package p\n\nvar x = include.String(\"f\")\n\n//go:generate include\n"

/-- The tree of `lateDirectiveSource`: the call occupies the offsets 19 to 37, the comment the
offsets 40 to 60. -/
def lateDirectiveFile : File :=
  { Comments := [{ List := [{ Slash := 41, Text := ascii "//go:generate include" }] }]
    Decls := [.genDecl [.valueSpec [includeCall 20 (ascii "String") (.basicLit 35 (ascii "\"f\"")) 38]]] }

/-- A declaration without placeholder, with a generate directive after it. -/
def trailingDirectiveSource : Bytes := ascii "package p\n\nvar x = 1\n\n//go:generate include\n"

/-- The tree of `trailingDirectiveSource`: the declaration occupies the offsets 11 to 19, the
comment the offsets 22 to 42. -/
def trailingDirectiveFile : File :=
  { Comments := [{ List := [{ Slash := 23, Text := ascii "//go:generate include" }] }]
    Decls := [.genDecl [.valueSpec [.basicLit 20 (ascii "1")]]] }

/-- A call of a function the stub package does not have. -/
def unknownSelectorSource : Bytes := ascii "package p\n\nvar x = include.Foo(\"x.txt\")\n"

/-- The tree of `unknownSelectorSource`. -/
def unknownSelectorFile : File :=
  { Comments := []
    Decls := [.genDecl [.valueSpec [includeCall 20 (ascii "Foo") (.basicLit 32 (ascii "\"x.txt\"")) 39]]] }

/-- A call with a variable as argument. -/
def variableArgumentSource : Bytes := ascii "package p\n\nvar x = include.String(someVar)\n"

/-- The tree of `variableArgumentSource`. -/
def variableArgumentFile : File :=
  { Comments := []
    Decls := [.genDecl [.valueSpec [includeCall 20 (ascii "String") (.ident 35 (ascii "someVar")) 42]]] }

/-- A call of an unknown function followed by a call with a variable as argument. -/
def twoFailuresSource : Bytes :=
  ascii "package p\n\nvar x = include.Foo(\"x.txt\")\nvar y = include.String(someVar)\n"

/-- The tree of `twoFailuresSource`. -/
def twoFailuresFile : File :=
  { Comments := []
    Decls := [.genDecl [.valueSpec [includeCall 20 (ascii "Foo") (.basicLit 32 (ascii "\"x.txt\"")) 39]],
              .genDecl [.valueSpec [includeCall 49 (ascii "String") (.ident 64 (ascii "someVar")) 71]]] }

/-- The file system of the examples: the file `f` holds the five bytes of "hello"; the parser
knows `source`; the formatter returns its input. -/
def exampleEnv (source : Bytes) (f : File) : Env :=
  singleFileEnv (ascii "f") (ascii "hello") (parseOnly source f)

/-- Delete the backslash that stands directly before a backquote; every other byte stays. -/
def unescapeBackquotes : Bytes → Bytes
  | [] => []
  | c :: rest =>
    if c = 92 ∧ rest.head? = some 96 then unescapeBackquotes rest
    else c :: unescapeBackquotes rest

/-- A placeholder call whose closing parenthesis is the last byte of the source. -/
def endingCallSource : Bytes := ascii "package p\n\nvar x = include.String(\"f\")"

/-- The tree of `endingCallSource`: the call occupies the offsets 19 to 37 of the 38 bytes. -/
def endingCallFile : File :=
  { Comments := []
    Decls := [.genDecl [.valueSpec [includeCall 20 (ascii "String") (.basicLit 35 (ascii "\"f\"")) 38]]] }

/-- A generate directive whose last byte is the last byte of the source. -/
def endingDirectiveSource : Bytes := ascii "package p\n//go:generate include"

/-- The tree of `endingDirectiveSource`: the comment occupies the offsets 10 to 30 of the 31
bytes. -/
def endingDirectiveFile : File :=
  { Comments := [{ List := [{ Slash := 11, Text := ascii "//go:generate include" }] }]
    Decls := [] }

/-- The bytes `source[s:e]` are kept by the pass so far: they stand in the buffer, or the cursor
has not passed their first byte. -/
def Kept (source : Bytes) (s e : Int) (st : State) : Prop :=
  (∃ seg, slice source s e = some seg ∧ seg <:+: st.out) ∨ st.lastWriteOffset ≤ s

/-- `Occurs call v`: the expression `call` is `v` or stands somewhere inside `v`. -/
inductive Occurs (call : Expr) : Expr → Prop where
  | here : Occurs call call
  | selector (x : Expr) (sel : Bytes) : Occurs call x → Occurs call (.selectorExpr x sel)
  | function (fn : Expr) (args : List Expr) (rparen : Nat) :
      Occurs call fn → Occurs call (.callExpr fn args rparen)
  | argument (fn : Expr) (args : List Expr) (rparen : Nat) (arg : Expr) :
      arg ∈ args → Occurs call arg → Occurs call (.callExpr fn args rparen)
  | left (x y : Expr) : Occurs call x → Occurs call (.binaryExpr x y)
  | right (x y : Expr) : Occurs call y → Occurs call (.binaryExpr x y)

/-- `NestedSite call v`: the top-level initializer `v` holds `call` in a position other than
being `v` itself: as operand of a binary expression, as argument of a call to a function of
another package, as argument of a conversion or of a call whose function is no selector, as
receiver of a further selector, or as receiver of a method call. -/
inductive NestedSite (call : Expr) : Expr → Prop where
  | operand (x y : Expr) : Occurs call x ∨ Occurs call y → NestedSite call (.binaryExpr x y)
  | packageArgument (p : Nat) (pkg sel : Bytes) (args : List Expr) (rparen : Nat) :
      pkg ≠ ascii "include" → (∃ arg ∈ args, Occurs call arg) →
      NestedSite call (.callExpr (.selectorExpr (.ident p pkg) sel) args rparen)
  | conversionArgument (fn : Expr) (args : List Expr) (rparen : Nat) :
      (∀ x sel, fn ≠ .selectorExpr x sel) → (∃ arg ∈ args, Occurs call arg) →
      NestedSite call (.callExpr fn args rparen)
  | receiver (x : Expr) (sel : Bytes) : Occurs call x → NestedSite call (.selectorExpr x sel)
  | method (x : Expr) (sel : Bytes) (args : List Expr) (rparen : Nat) :
      Occurs call x → NestedSite call (.callExpr (.selectorExpr x sel) args rparen)

/-- A call of a function that is no selector. -/
def plainCallSource : Bytes := ascii "package p\n\nvar x = foo(1)\n"

/-- The tree of `plainCallSource`: the call occupies the offsets 19 to 24. -/
def plainCallFile : File :=
  { Comments := []
    Decls := [.genDecl [.valueSpec [.callExpr (.ident 20 (ascii "foo")) [.basicLit 24 (ascii "1")] 25]]] }

/-- A call of a function that is no selector, with a comment that matches a directive pattern
between its parentheses. -/
def commentInCallSource : Bytes := ascii "package p\n\nvar x = foo(/* +build include */ 1)\n"

/-- The tree of `commentInCallSource`: the call occupies the offsets 19 to 45, the comment the
offsets 23 to 42. -/
def commentInCallFile : File :=
  { Comments := [{ List := [{ Slash := 24, Text := ascii "/* +build include */" }] }]
    Decls := [.genDecl [.valueSpec [.callExpr (.ident 20 (ascii "foo")) [.basicLit 45 (ascii "1")] 46]]] }

/-- A placeholder call as operand of a binary expression, and one inside a function body. -/
def nestedCallSource : Bytes :=
  ascii ("package p\n\nvar x = \"a\" + include.String(\"f\")\n\n" ++
    "func g() string \x7b return include.String(\"f\") \x7d\n")

/-- The tree of `nestedCallSource`: the binary expression starts at offset 19, the call in it
occupies the offsets 25 to 43; the function declaration is the second declaration. -/
def nestedCallFile : File :=
  { Comments := []
    Decls := [.genDecl [.valueSpec [.binaryExpr (.basicLit 20 (ascii "\"a\""))
                (includeCall 26 (ascii "String") (.basicLit 41 (ascii "\"f\"")) 44)]],
              .otherDecl] }

/-- A placeholder call as operand of a binary expression, with a comment that matches a
directive pattern between its parentheses. -/
def commentInNestedSource : Bytes :=
  ascii "package p\n\nvar x = \"a\" + include.String(/* +build include */ \"f\")\n"

/-- The tree of `commentInNestedSource`: the call occupies the offsets 25 to 64, the comment
the offsets 40 to 59. -/
def commentInNestedFile : File :=
  { Comments := [{ List := [{ Slash := 41, Text := ascii "/* +build include */" }] }]
    Decls := [.genDecl [.valueSpec [.binaryExpr (.basicLit 20 (ascii "\"a\""))
                (includeCall 26 (ascii "String") (.basicLit 62 (ascii "\"f\"")) 65)]]] }

/-- A valid placeholder call, a generate directive after it, and then a call of a function the
stub package does not have. -/
def hiddenSelectorSource : Bytes :=
  ascii ("package p\n\nvar x = include.String(\"f\")\n\n//go:generate include\n" ++
    "var y = include.Foo(\"x.txt\")\n")

/-- The tree of `hiddenSelectorSource`: the first call occupies the offsets 19 to 37, the comment
the offsets 40 to 60, the second call the offsets 70 to 89. -/
def hiddenSelectorFile : File :=
  { Comments := [{ List := [{ Slash := 41, Text := ascii "//go:generate include" }] }]
    Decls := [.genDecl [.valueSpec [includeCall 20 (ascii "String") (.basicLit 35 (ascii "\"f\"")) 38]],
              .genDecl [.valueSpec [includeCall 71 (ascii "Foo") (.basicLit 83 (ascii "\"x.txt\"")) 90]]] }

/-- A valid placeholder call, a build directive after it, and then a call with a variable as
argument. -/
def hiddenArgumentSource : Bytes :=
  ascii ("package p\n\nvar x = include.Bytes(\"f\")\n\n// +build include\n" ++
    "var y = include.String(someVar)\n")

/-- The tree of `hiddenArgumentSource`: the first call occupies the offsets 19 to 36, the
comment the offsets 39 to 55, the second call the offsets 65 to 87. -/
def hiddenArgumentFile : File :=
  { Comments := [{ List := [{ Slash := 40, Text := ascii "// +build include" }] }]
    Decls := [.genDecl [.valueSpec [includeCall 20 (ascii "Bytes") (.basicLit 34 (ascii "\"f\"")) 37]],
              .genDecl [.valueSpec [includeCall 66 (ascii "String") (.ident 81 (ascii "someVar")) 88]]] }

/-! ## The encoders -/

theorem bytesLoop_eq (content : Bytes) : ∀ (i : Nat) (builder : Bytes),
    bytesLoop i content builder = builder ++ elements i content := by
  induction content with
  | nil => intro i builder; simp [bytesLoop, elements]
  | cons b rest ih =>
    intro i builder
    simp only [bytesLoop, elements]
    rw [ih]
    split <;> simp

theorem itoaAux_acc (fuel : Nat) : ∀ (n : Nat) (acc : Bytes),
    itoaAux fuel n acc = itoaAux fuel n [] ++ acc := by
  induction fuel with
  | zero => intro n acc; simp [itoaAux]
  | succ fuel ih =>
    intro n acc
    simp only [itoaAux]
    split
    · simp
    · rw [ih _ (_ :: acc), ih _ [_]]; simp

theorem itoaAux_spec (fuel : Nat) : ∀ (n : Nat), n < fuel →
    itoaAux fuel n [] ≠ [] ∧ (∀ c ∈ itoaAux fuel n [], 48 ≤ c ∧ c ≤ 57) ∧
      digitsValue 0 (itoaAux fuel n []) = n := by
  induction fuel with
  | zero => intro n h; omega
  | succ fuel ih =>
    intro n h
    simp only [itoaAux]
    split
    · refine ⟨by simp, ?_, ?_⟩
      · intro c hc; simp at hc; omega
      · simp [digitsValue]
    · rename_i h10
      have hlt : n / 10 < fuel := by omega
      obtain ⟨h1, h2, h3⟩ := ih (n / 10) hlt
      rw [itoaAux_acc]
      refine ⟨by simp, ?_, ?_⟩
      · intro c hc
        rcases List.mem_append.1 hc with hc | hc
        · exact h2 c hc
        · simp at hc; omega
      · simp only [digitsValue, List.foldl_append, List.foldl_cons, List.foldl_nil] at h3 ⊢
        rw [h3]; omega

/-- `Itoa n` is a non-empty string of decimal digits whose value is `n`. -/
theorem Itoa_spec (n : Nat) :
    Itoa n ≠ [] ∧ (∀ c ∈ Itoa n, 48 ≤ c ∧ c ≤ 57) ∧ digitsValue 0 (Itoa n) = n :=
  itoaAux_spec (n + 1) n (Nat.lt_succ_self n)

theorem parseInts_digits (ds : Bytes) : ∀ (cur : Option Nat) (rest : Bytes), ds ≠ [] →
    (∀ c ∈ ds, 48 ≤ c ∧ c ≤ 57) →
    parseInts cur (ds ++ 44 :: rest)
      = (parseInts none rest).map (fun vs => digitsValue (cur.getD 0) ds :: vs) := by
  induction ds with
  | nil => intro cur rest h; exact absurd rfl h
  | cons d ds ih =>
    intro cur rest _ hd
    have hd0 : 48 ≤ d ∧ d ≤ 57 := hd d (List.mem_cons_self _ _)
    by_cases hds : ds = []
    · subst hds
      cases cur <;> simp [parseInts, hd0, digitsValue]
    · have := ih (some (cur.getD 0 * 10 + (d - 48))) rest hds
        (fun c hc => hd c (List.mem_cons_of_mem _ hc))
      cases cur <;> simp_all [parseInts, digitsValue]

theorem filter_Itoa (n : Nat) : (Itoa n).filter (fun c => c ≠ 10) = Itoa n := by
  rw [List.filter_eq_self]
  intro c hc
  have := (Itoa_spec n).2.1 c hc
  simp; omega

theorem filter_elements (content : Bytes) : ∀ i : Nat,
    (elements i content).filter (fun c => c ≠ 10) = tokens content := by
  induction content with
  | nil => intro i; simp [elements, tokens]
  | cons b rest ih =>
    intro i
    simp only [elements, tokens, List.filter_append, ih, filter_Itoa]
    split <;> simp

theorem parseInts_tokens (content : Bytes) : parseInts none (tokens content) = some content := by
  induction content with
  | nil => simp [tokens, parseInts]
  | cons b rest ih =>
    have h := Itoa_spec b
    simp only [tokens, List.append_assoc, List.singleton_append]
    rw [parseInts_digits _ _ _ h.1 h.2.1, ih]
    simp [h.2.2]

theorem decode_literal (content : Bytes) :
    decodeBytesLiteral (bytesLoop 0 content (ascii "[]byte\x7b\n") ++ ascii "\n\x7d\n")
      = some content := by
  have h1 : (bytesLoop 0 content (ascii "[]byte\x7b\n") ++ ascii "\n\x7d\n").filter
      (fun c => c ≠ 10) = ascii "[]byte\x7b" ++ (tokens content ++ ascii "\x7d") := by
    rw [bytesLoop_eq, List.filter_append, List.filter_append, filter_elements]
    have e1 : (ascii "[]byte\x7b\n").filter (fun c => c ≠ 10) = ascii "[]byte\x7b" := by decide
    have e2 : (ascii "\n\x7d\n").filter (fun c => c ≠ 10) = ascii "\x7d" := by decide
    rw [e1, e2, List.append_assoc]
  unfold decodeBytesLiteral
  rw [h1]
  have h2 : dropOpening (ascii "[]byte\x7b")
      (ascii "[]byte\x7b" ++ (tokens content ++ ascii "\x7d"))
      = some (tokens content ++ ascii "\x7d") := by
    simp [dropOpening]
  rw [h2]
  have h3 : dropClosing (ascii "\x7d") (tokens content ++ ascii "\x7d")
      = some (tokens content) := by
    simp [dropClosing]
  simp only [h3]
  exact parseInts_tokens content

/-- C2 (bytes round trip): whatever bytes `readFile` delivers, `fileContentAsBytes` returns a
literal from which removing the opening token and the closing brace, discarding the line breaks
and reading comma-terminated decimal integers gives back a list of as many integers as there are
bytes, each at most 255, equal to the content in its order. -/
theorem bytes_round_trip (env : Env) (filename : Bytes) (options : Options) (content : Bytes)
    (hread : readFile env filename options = .ok content) (hbytes : ∀ b ∈ content, b < 256) :
    ∃ out ints, fileContentAsBytes env filename options = .ok out ∧
      decodeBytesLiteral out = some ints ∧ ints.length = content.length ∧
      (∀ n ∈ ints, n ≤ 255) ∧ ints = content := by
  refine ⟨_, content, ?_, decode_literal content, rfl, ?_, rfl⟩
  · simp [fileContentAsBytes, hread]
  · intro n hn
    have := hbytes n hn
    omega

/-- The round trip of C2 on the three bytes 0, 200, 255 and on the empty file. -/
theorem bytes_round_trip_witness :
    (∃ out ints, fileContentAsBytes (singleFileEnv [102] [0, 200, 255] (parseOnly [] ⟨[], []⟩))
        [102] noOptions = .ok out ∧
      decodeBytesLiteral out = some ints ∧ ints.length = [0, 200, 255].length ∧
      (∀ n ∈ ints, n ≤ 255) ∧ ints = [0, 200, 255]) ∧
    fileContentAsBytes (singleFileEnv [102] [] (parseOnly [] ⟨[], []⟩)) [102] noOptions
      = .ok (ascii "[]byte\x7b\n\n\x7d\n") :=
  ⟨bytes_round_trip _ [102] noOptions [0, 200, 255] rfl (by decide), rfl⟩

theorem escapeBackquotes_of_not_mem (content : Bytes) (h : 96 ∉ content) :
    escapeBackquotes content = content := by
  induction content with
  | nil => rfl
  | cons c s ih =>
    have hc : c ≠ 96 := fun e => h (e ▸ List.mem_cons_self _ _)
    have hs : 96 ∉ s := fun e => h (List.mem_cons_of_mem _ e)
    simp [escapeBackquotes, hc, ih hs]

theorem scanRawString_plain (content : Bytes) (h : 96 ∉ content) :
    scanRawString ([96] ++ content ++ [96]) = some (content, []) := by
  have hall : ∀ c ∈ content, (decide (c ≠ 96)) = true := by
    intro c hc
    have : c ≠ 96 := fun e => h (e ▸ hc)
    simpa using this
  have hd : (content ++ [96]).dropWhile (fun c => c ≠ 96) = [96] := by
    rw [List.dropWhile_append_of_pos hall]; simp [List.dropWhile]
  have ht : (content ++ [96]).takeWhile (fun c => c ≠ 96) = content := by
    rw [List.takeWhile_append_of_pos hall]; simp [List.takeWhile]
  simp only [List.singleton_append, List.cons_append, List.nil_append, scanRawString, hd, ht]

/-- What the literal of `fileContentAsString` decodes to: for content without a backquote,
reading the output as a Go raw string literal gives the content with its carriage returns
removed, so exactly the original bytes if and only if the content has no carriage return. -/
theorem string_round_trip (env : Env) (filename : Bytes) (options : Options) (content : Bytes)
    (hread : readFile env filename options = .ok content) (hplain : 96 ∉ content) :
    ∃ out, fileContentAsString env filename options = .ok out ∧
      decodeRawString out = some (content.filter (fun c => c ≠ 13)) ∧
      (decodeRawString out = some content ↔ 13 ∉ content) := by
  have hdec : decodeRawString ([96] ++ escapeBackquotes content ++ [96])
      = some (content.filter (fun c => c ≠ 13)) := by
    rw [escapeBackquotes_of_not_mem content hplain]
    simp only [decodeRawString, scanRawString_plain content hplain]
  refine ⟨_, by simp [fileContentAsString, hread], hdec, ?_⟩
  rw [hdec, Option.some_inj, List.filter_eq_self]
  constructor
  · intro h hmem
    simpa using h 13 hmem
  · intro h c hc
    have : c ≠ 13 := fun e => h (e ▸ hc)
    simpa using this

/-- The literal of the content "a\nb" decodes to that content. -/
theorem string_round_trip_witness :
    (∃ out, fileContentAsString (singleFileEnv [102] (ascii "a\nb") (parseOnly [] ⟨[], []⟩))
        [102] noOptions = .ok out ∧
      decodeRawString out = some ((ascii "a\nb").filter (fun c => c ≠ 13)) ∧
      (decodeRawString out = some (ascii "a\nb") ↔ 13 ∉ ascii "a\nb")) ∧
    (ascii "a\nb").filter (fun c => c ≠ 13) = ascii "a\nb" :=
  ⟨string_round_trip _ [102] noOptions (ascii "a\nb") rfl (by decide), by decide⟩

/-- C3 (string round trip) does not hold of the code: the content "a\r\nb" has no backquote,
`fileContentAsString` returns the literal made of a backquote, the four bytes and a backquote,
and reading that literal as a Go raw string gives the three bytes "a\nb", not the original
four: the literal is not a string literal of the file's content. The sibling
`fileContentAsBytes` keeps all four bytes of the same file. -/
theorem string_round_trip_fails_on_carriage_return :
    readFile (singleFileEnv [102] (ascii "a\r\nb") (parseOnly [] ⟨[], []⟩)) [102] noOptions
      = .ok (ascii "a\r\nb") ∧
    96 ∉ ascii "a\r\nb" ∧
    fileContentAsString (singleFileEnv [102] (ascii "a\r\nb") (parseOnly [] ⟨[], []⟩))
      [102] noOptions = .ok (ascii "\x60a\r\nb\x60") ∧
    decodeRawString (ascii "\x60a\r\nb\x60") = some (ascii "a\nb") ∧
    decodeRawString (ascii "\x60a\r\nb\x60") ≠ some (ascii "a\r\nb") ∧
    fileContentAsBytes (singleFileEnv [102] (ascii "a\r\nb") (parseOnly [] ⟨[], []⟩))
      [102] noOptions = .ok (ascii "[]byte\x7b\n97,13,10,98,\n\x7d\n") ∧
    decodeBytesLiteral (ascii "[]byte\x7b\n97,13,10,98,\n\x7d\n") = some (ascii "a\r\nb") :=
  ⟨rfl, by decide, rfl, by decide, by decide, rfl, by decide⟩

theorem elements_append (xs : Bytes) : ∀ (i : Nat) (ys : Bytes),
    elements i (xs ++ ys) = elements i xs ++ elements (i + xs.length) ys := by
  induction xs with
  | nil => intro i ys; simp [elements]
  | cons b xs ih =>
    intro i ys
    show elements i (b :: (xs ++ ys)) = _
    simp only [elements, List.length_cons]
    rw [ih, show i + 1 + xs.length = i + (xs.length + 1) by omega]
    simp

theorem count_Itoa (n c : Nat) (hc : c < 48) : (Itoa n).count c = 0 := by
  rw [List.count_eq_zero]
  intro hmem
  have := (Itoa_spec n).2.1 c hmem
  omega

theorem count_separators (xs : Bytes) : ∀ i : Nat, (elements i xs).count 44 = xs.length := by
  induction xs with
  | nil => intro i; simp [elements]
  | cons b xs ih =>
    intro i
    simp only [elements, List.count_append, ih, count_Itoa b 44 (by omega), List.length_cons]
    split <;> simp <;> omega

theorem count_breaks (xs : Bytes) : (elements 0 xs).count 10 = (xs.length - 1) / 20 := by
  induction xs using List.reverseRecOn with
  | nil => simp [elements]
  | append_singleton xs b ih =>
    rw [elements_append, List.count_append, ih]
    simp only [elements, Nat.zero_add, List.count_append, count_Itoa b 10 (by omega),
      List.length_append, List.length_singleton, List.append_nil]
    split <;> simp <;> omega

theorem head_elements (ys : Bytes) (i : Nat) : (elements i ys).head? ≠ some 10 := by
  cases ys with
  | nil => simp [elements]
  | cons y ys =>
    have h := Itoa_spec y
    cases hI : Itoa y with
    | nil => exact absurd hI h.1
    | cons d ds =>
      have hd := h.2.1 d (by rw [hI]; exact List.mem_cons_self _ _)
      simp only [elements, hI, List.cons_append, List.head?_cons, ne_eq, Option.some.injEq]
      omega

/-- C8 as amended (line-break cadence): the output of `fileContentAsBytes` is the opening token,
the text of the elements and the closing token. The separator of byte `i` (the comma that ends
the token of byte `i`, with exactly `i` separators before it) has a line break written by the
loop directly after it if and only if `i > 0` and `i % 20 = 0`; in the output it is directly
followed by a line break if and only if `i > 0` and `i % 20 = 0`, or `i` is the last index,
where the line break of the closing token follows. The loop writes exactly `(n - 1) / 20` line
breaks for `n` bytes, so exactly two for 45 bytes. -/
theorem line_break_cadence (env : Env) (filename : Bytes) (options : Options) (content : Bytes)
    (hread : readFile env filename options = .ok content) :
    ∃ elems, fileContentAsBytes env filename options
        = .ok (ascii "[]byte\x7b\n" ++ elems ++ ascii "\n\x7d\n") ∧
      (∀ (i : Nat) (hi : i < content.length), ∃ pre post,
        elems = pre ++ Itoa (content.get ⟨i, hi⟩) ++ 44 :: post ∧
        (pre ++ Itoa (content.get ⟨i, hi⟩)).count 44 = i ∧
        (post.head? = some 10 ↔ 0 < i ∧ i % 20 = 0) ∧
        ascii "[]byte\x7b\n" ++ elems ++ ascii "\n\x7d\n"
          = (ascii "[]byte\x7b\n" ++ pre ++ Itoa (content.get ⟨i, hi⟩)) ++
              44 :: (post ++ ascii "\n\x7d\n") ∧
        (ascii "[]byte\x7b\n" ++ pre ++ Itoa (content.get ⟨i, hi⟩)).count 44 = i ∧
        ((post ++ ascii "\n\x7d\n").head? = some 10 ↔
          (0 < i ∧ i % 20 = 0) ∨ i + 1 = content.length)) ∧
      elems.count 10 = (content.length - 1) / 20 ∧
      (content.length = 45 → elems.count 10 = 2) := by
  refine ⟨elements 0 content, ?_, ?_, count_breaks content, ?_⟩
  · simp [fileContentAsBytes, hread, bytesLoop_eq]
  · intro i hi
    have hsplit : content = content.take i ++ content.get ⟨i, hi⟩ :: content.drop (i + 1) := by
      rw [List.get_eq_getElem, List.getElem_cons_drop, List.take_append_drop]
    have hlen : (content.take i).length = i := by
      rw [List.length_take]; omega
    have helems : elements 0 content = elements 0 (content.take i) ++
        Itoa (content.get ⟨i, hi⟩) ++ 44 ::
          ((if 0 < i ∧ i % 20 = 0 then [10] else []) ++
            elements (i + 1) (content.drop (i + 1))) := by
      conv_lhs => rw [hsplit]
      rw [elements_append, hlen]
      simp [elements]
    have hcount : (elements 0 (content.take i) ++ Itoa (content.get ⟨i, hi⟩)).count 44 = i := by
      rw [List.count_append, count_separators, count_Itoa _ 44 (by omega), hlen]
      rfl
    refine ⟨elements 0 (content.take i),
      (if 0 < i ∧ i % 20 = 0 then [10] else []) ++ elements (i + 1) (content.drop (i + 1)),
      helems, hcount, ?_, ?_, ?_, ?_⟩
    · by_cases hc : 0 < i ∧ i % 20 = 0
      · simp [hc]
      · simp only [hc, if_false, List.nil_append, iff_false]
        exact head_elements _ _
    · rw [helems]
      simp
    · have hopen : (ascii "[]byte\x7b\n").count 44 = 0 := by decide
      rw [List.append_assoc, List.count_append, hopen, hcount, Nat.zero_add]
    · by_cases hc : 0 < i ∧ i % 20 = 0
      · simp [hc]
      · simp only [hc, if_false, List.nil_append, false_or]
        cases hd : content.drop (i + 1) with
        | nil =>
          have hn : content.length ≤ i + 1 := List.drop_eq_nil_iff.1 hd
          have : i + 1 = content.length := by omega
          simp only [elements, List.nil_append, this, iff_true]
          decide
        | cons y ys =>
          have hn : i + 1 < content.length := by
            have := congrArg List.length hd
            simp only [List.length_drop, List.length_cons] at this
            omega
          have hne : i + 1 ≠ content.length := by omega
          have hh := head_elements (y :: ys) (i + 1)
          have hnil : elements (i + 1) (y :: ys) ≠ [] := by
            have h := (Itoa_spec y).1
            intro hnil
            simp only [elements, List.append_eq_nil, List.cons_ne_nil, and_false,
              false_and] at hnil
          simp only [hne, iff_false]
          rw [List.head?_append_of_ne_nil _ hnil]
          exact hh
  · intro h45
    rw [count_breaks, h45]

/-- The cadence of C8 on a file of 45 zero bytes: one line break after the separators of the
bytes 20 and 40. -/
theorem line_break_cadence_witness :
    (∃ elems, fileContentAsBytes
        (singleFileEnv [102] (List.replicate 45 0) (parseOnly [] ⟨[], []⟩)) [102] noOptions
        = .ok (ascii "[]byte\x7b\n" ++ elems ++ ascii "\n\x7d\n") ∧
      (∀ (i : Nat) (hi : i < (List.replicate 45 0).length), ∃ pre post,
        elems = pre ++ Itoa ((List.replicate 45 0).get ⟨i, hi⟩) ++ 44 :: post ∧
        (pre ++ Itoa ((List.replicate 45 0).get ⟨i, hi⟩)).count 44 = i ∧
        (post.head? = some 10 ↔ 0 < i ∧ i % 20 = 0) ∧
        ascii "[]byte\x7b\n" ++ elems ++ ascii "\n\x7d\n"
          = (ascii "[]byte\x7b\n" ++ pre ++ Itoa ((List.replicate 45 0).get ⟨i, hi⟩)) ++
              44 :: (post ++ ascii "\n\x7d\n") ∧
        (ascii "[]byte\x7b\n" ++ pre ++ Itoa ((List.replicate 45 0).get ⟨i, hi⟩)).count 44 = i ∧
        ((post ++ ascii "\n\x7d\n").head? = some 10 ↔
          (0 < i ∧ i % 20 = 0) ∨ i + 1 = (List.replicate 45 0).length)) ∧
      elems.count 10 = ((List.replicate 45 0).length - 1) / 20 ∧
      ((List.replicate 45 0).length = 45 → elems.count 10 = 2)) ∧
    fileContentAsBytes (singleFileEnv [102] (List.replicate 45 0) (parseOnly [] ⟨[], []⟩))
      [102] noOptions
      = .ok (ascii ("[]byte\x7b\n0,0,0,0,0,0,0,0,0,0,0,0,0,0,0,0,0,0,0,0,0,\n" ++
          "0,0,0,0,0,0,0,0,0,0,0,0,0,0,0,0,0,0,0,0,\n0,0,0,0,\n\x7d\n")) :=
  ⟨line_break_cadence _ [102] noOptions (List.replicate 45 0) rfl, by
    set_option maxRecDepth 100000 in rfl⟩

/-- C8 as stated fails: for the one byte 5 the output is `[]byte{\n5,\n}\n`; the separator of
byte 0, the only comma, is directly followed by a line break, the first byte of the closing
token, although the index 0 is not greater than 0. -/
theorem last_separator_before_closing_break :
    readFile (singleFileEnv [102] [5] (parseOnly [] ⟨[], []⟩)) [102] noOptions = .ok [5] ∧
    fileContentAsBytes (singleFileEnv [102] [5] (parseOnly [] ⟨[], []⟩)) [102] noOptions
      = .ok (ascii "[]byte\x7b\n5,\n\x7d\n") ∧
    ascii "[]byte\x7b\n5,\n\x7d\n" = ascii "[]byte\x7b\n5" ++ 44 :: ascii "\n\x7d\n" ∧
    (ascii "[]byte\x7b\n5").count 44 = 0 ∧
    (ascii "\n\x7d\n").head? = some 10 ∧
    ¬ (0 < 0 ∧ 0 % 20 = 0) :=
  ⟨rfl, rfl, by decide, by decide, by decide, by decide⟩

/-! ## The pass of `Include` -/

theorem forEach_append {α : Type} (step : State → α → Flow) (xs : List α) :
    ∀ (st : State) (ys : List α),
      forEach step st (xs ++ ys) = (forEach step st xs).bind (fun st1 => forEach step st1 ys) := by
  induction xs with
  | nil => intro st ys; rfl
  | cons x xs ih =>
    intro st ys
    simp only [List.cons_append, forEach]
    cases step st x with
    | next st1 => simpa [Flow.bind] using ih st1 ys
    | stop st1 => rfl
    | panic st1 => rfl

theorem forEach_specs (env : Env) (options : Options) (source : Bytes) (specs : List Spec) :
    ∀ st : State, forEach (processSpec env options source) st specs
      = forEach (processValue env options source) st (specsValues specs) := by
  induction specs with
  | nil => intro st; rfl
  | cons s specs ih =>
    intro st
    cases s with
    | valueSpec values =>
      simp only [forEach, specsValues, processSpec, forEach_append]
      congr 1
      funext st1
      exact ih st1
    | otherSpec =>
      simp only [forEach, specsValues, processSpec, Flow.bind]
      exact ih st

/-- The three nested loops over declarations, specs and values are one loop over the top-level
initializers in source order. -/
theorem forEach_decls (env : Env) (options : Options) (source : Bytes) (decls : List Decl) :
    ∀ st : State, forEach (processDecl env options source) st decls
      = forEach (processValue env options source) st (topLevelValues decls) := by
  induction decls with
  | nil => intro st; rfl
  | cons d decls ih =>
    intro st
    cases d with
    | genDecl specs =>
      simp only [forEach, topLevelValues, processDecl, forEach_append, forEach_specs]
      congr 1
      funext st1
      exact ih st1
    | otherDecl =>
      simp only [forEach, topLevelValues, processDecl, Flow.bind]
      exact ih st

theorem forEach_skip {α : Type} (step : State → α → Flow) (xs : List α) (st : State)
    (h : ∀ x ∈ xs, ∀ st1, step st1 x = .next st1) : forEach step st xs = .next st := by
  induction xs with
  | nil => rfl
  | cons x xs ih =>
    simp only [forEach, h x (List.mem_cons_self _ _) st, Flow.bind]
    exact ih (fun y hy => h y (List.mem_cons_of_mem _ hy))

theorem slice_from_start (source : Bytes) : slice source 0 (source.length : Int) = some source := by
  simp [slice]

theorem inspectFile_eq (env : Env) (options : Options) (source : Bytes) (st : State) (f : File) :
    inspectFile env options source st f
      = (commentsLoop source options.BuildTag st f.Comments).bind (fun st1 =>
          forEach (processValue env options source) (afterTagLines options.BuildTag st1)
            (topLevelValues f.Decls)) := by
  simp only [inspectFile, forEach_decls, afterTagLines]

/-- C5 (no-placeholder identity): for a source that parses, none of whose comments matches a
directive pattern and none of whose top-level initializers is a placeholder call, the buffer
`Include` hands to the formatter is the header line, the two negated-tag lines for the tag in
effect, and the source unchanged. The tag in effect is the tag of the options, or `include`
when the options carry none. -/
theorem no_placeholder_identity (env : Env) (filename source : Bytes) (options : Options)
    (f : File) (hparse : env.parseFile filename source = .ok f)
    (hcomments : ∀ cg ∈ f.Comments, ∀ c ∈ cg.List,
      isDirective (withDefaultTag options).BuildTag c = false)
    (hcalls : ∀ v ∈ topLevelValues f.Decls, candidate? v = none) :
    Include env filename source options
      = processImports env filename
          (ascii "//Code generated by include. DO NOT EDIT.\n\n" ++
            (ascii "//go:build !" ++ (withDefaultTag options).BuildTag ++ ascii "\n" ++
              (ascii "// +build !" ++ (withDefaultTag options).BuildTag ++ ascii "\n")) ++
            source) ∧
      (withDefaultTag options).BuildTag
        = (if options.BuildTag = [] then ascii "include" else options.BuildTag) := by
  constructor
  · have hc : commentsLoop source (withDefaultTag options).BuildTag initialState f.Comments
        = .next initialState := by
      apply forEach_skip
      intro cg hcg st1
      apply forEach_skip
      intro c hc st2
      simp [commentStep, hcomments cg hcg c hc]
    have hv : forEach (processValue env (withDefaultTag options) source)
        (afterTagLines (withDefaultTag options).BuildTag initialState) (topLevelValues f.Decls)
        = .next (afterTagLines (withDefaultTag options).BuildTag initialState) := by
      apply forEach_skip
      intro v hv st1
      simp [processValue, hcalls v hv]
    have hi : inspectFile env (withDefaultTag options) source initialState f
        = .next (afterTagLines (withDefaultTag options).BuildTag initialState) := by
      rw [inspectFile_eq, hc]
      exact hv
    have ha : ∃ st, assemble env (withDefaultTag options) source f
        = .buffer (generatedHeader ++ negatedTagLines (withDefaultTag options).BuildTag ++ source)
            st := by
      unfold assemble
      rw [hi]
      simp [afterTagLines, initialState, slice_from_start]
    obtain ⟨st, ha⟩ := ha
    simp only [Include, hparse, ha]
    rfl
  · unfold withDefaultTag
    split <;> simp_all [DEFAULT_BUILD_TAG]

/-- The identity of C5 on the source of a package with one declaration and a comment that is no
directive. -/
theorem no_placeholder_identity_witness :
    Include (exampleEnv (ascii "// demo\npackage p\n\nvar x = 1\n")
        { Comments := [{ List := [{ Slash := 1, Text := ascii "// demo" }] }]
          Decls := [.genDecl [.valueSpec [.basicLit 28 (ascii "1")]]] })
      (ascii "p.go") (ascii "// demo\npackage p\n\nvar x = 1\n") noOptions
      = processImports (exampleEnv (ascii "// demo\npackage p\n\nvar x = 1\n")
          { Comments := [{ List := [{ Slash := 1, Text := ascii "// demo" }] }]
            Decls := [.genDecl [.valueSpec [.basicLit 28 (ascii "1")]]] }) (ascii "p.go")
          (ascii "//Code generated by include. DO NOT EDIT.\n\n" ++
            (ascii "//go:build !" ++ (withDefaultTag noOptions).BuildTag ++ ascii "\n" ++
              (ascii "// +build !" ++ (withDefaultTag noOptions).BuildTag ++ ascii "\n")) ++
            ascii "// demo\npackage p\n\nvar x = 1\n") ∧
      (withDefaultTag noOptions).BuildTag
        = (if noOptions.BuildTag = [] then ascii "include" else noOptions.BuildTag) :=
  no_placeholder_identity _ (ascii "p.go") (ascii "// demo\npackage p\n\nvar x = 1\n") noOptions
    { Comments := [{ List := [{ Slash := 1, Text := ascii "// demo" }] }]
      Decls := [.genDecl [.valueSpec [.basicLit 28 (ascii "1")]]] }
    rfl (by decide) (by simp [topLevelValues, specsValues, candidate?])

/-! ## The pass on concrete sources -/

set_option maxRecDepth 100000

/-- C1 (placeholder splice exactness) does not hold of the code: on the source
`package p\n\nvar x = include.String("f")\nvar y = 1\n`, whose only placeholder call occupies
the offsets 19 to 37, the pass copies `source[0:19]`, writes the replacement and goes on at
offset 39 (the value of the call's `End()`, taken as an offset) instead of 38: the line break
after the call is lost and the assembled buffer is not header, tag lines, `source[0:19]`,
replacement, `source[38:]`. -/
theorem splice_skips_byte_after_call :
    (exampleEnv spliceSource spliceFile).parseFile (ascii "p.go") spliceSource = .ok spliceFile ∧
    slice spliceSource 19 38 = some (ascii "include.String(\"f\")") ∧
    fileContentAsString (exampleEnv spliceSource spliceFile) (ascii "f") (withDefaultTag noOptions)
      = .ok (ascii "\x60hello\x60") ∧
    assemble (exampleEnv spliceSource spliceFile) (withDefaultTag noOptions) spliceSource spliceFile
      = .buffer
          (ascii ("//Code generated by include. DO NOT EDIT.\n\n" ++
            "//go:build !include\n// +build !include\n" ++
            "package p\n\nvar x = \x60hello\x60var y = 1\n"))
          { out := ascii ("//Code generated by include. DO NOT EDIT.\n\n" ++
              "//go:build !include\n// +build !include\n" ++
              "package p\n\nvar x = \x60hello\x60var y = 1\n")
            lastWriteOffset := 39
            inspectErr := none
            reads := [ascii "f"]
            slices := [(0, 19), (39, 49)] } ∧
    ascii ("//Code generated by include. DO NOT EDIT.\n\n" ++
        "//go:build !include\n// +build !include\n" ++
        "package p\n\nvar x = \x60hello\x60var y = 1\n")
      ≠ generatedHeader ++ negatedTagLines (ascii "include") ++ spliceSource.take 19 ++
          ascii "\x60hello\x60" ++ spliceSource.drop 38 :=
  ⟨rfl, by decide, rfl, by decide, by decide⟩

/-- C6 (directive removal exactness) does not hold of the code: on the source
`//go:build include\n\npackage p\n`, whose matching comment occupies the offsets 0 to 17, the
pass copies `source[0:0]` and goes on at offset 19 (the value of the comment's `End()`, taken as
an offset) instead of 18: the byte right after the comment, at offset 18, is in none of the
copied slices and the source bytes that reach the buffer are `source[19:]`, not `source[18:]`. -/
theorem directive_removal_skips_following_byte :
    (exampleEnv directiveSource directiveFile).parseFile (ascii "p.go") directiveSource
      = .ok directiveFile ∧
    slice directiveSource 0 18 = some (ascii "//go:build include") ∧
    assemble (exampleEnv directiveSource directiveFile) (withDefaultTag noOptions) directiveSource
        directiveFile
      = .buffer
          (ascii ("//Code generated by include. DO NOT EDIT.\n\n" ++
            "//go:build !include\n// +build !include\n" ++ "\npackage p\n"))
          { out := ascii ("//Code generated by include. DO NOT EDIT.\n\n" ++
              "//go:build !include\n// +build !include\n" ++ "\npackage p\n")
            lastWriteOffset := 19
            inspectErr := none
            reads := []
            slices := [(0, 0), (19, 30)] } ∧
    directiveSource.drop 19 = ascii "\npackage p\n" ∧
    directiveSource.drop 18 = ascii "\n\npackage p\n" :=
  ⟨rfl, by decide, by decide, by decide, by decide⟩

/-- C4 (cursor monotonicity) does not hold of the code: on the source
`package p\n\nvar x = include.String("f")\n\n//go:generate include\n` the pass over the comments
runs first, copies `source[0:40]` and sets the cursor to 62; the placeholder call at offset 19 is
handled afterwards and asks for the slice `source[62:19]`, whose lower bound exceeds its upper
bound: the run faults and `Include` returns nothing. -/
theorem cursor_rewinds_for_directive_after_call :
    (exampleEnv lateDirectiveSource lateDirectiveFile).parseFile (ascii "p.go") lateDirectiveSource
      = .ok lateDirectiveFile ∧
    slice lateDirectiveSource 19 38 = some (ascii "include.String(\"f\")") ∧
    slice lateDirectiveSource 40 61 = some (ascii "//go:generate include") ∧
    assemble (exampleEnv lateDirectiveSource lateDirectiveFile) (withDefaultTag noOptions)
        lateDirectiveSource lateDirectiveFile
      = .panicked
          { out := ascii ("//Code generated by include. DO NOT EDIT.\n\n" ++
              "package p\n\nvar x = include.String(\"f\")\n\n" ++
              "//go:build !include\n// +build !include\n")
            lastWriteOffset := 62
            inspectErr := none
            reads := [ascii "f"]
            slices := [(0, 40), (62, 19)] } ∧
    Include (exampleEnv lateDirectiveSource lateDirectiveFile) (ascii "p.go") lateDirectiveSource
        noOptions = .panicked :=
  ⟨rfl, by decide, by decide, by decide, by decide⟩

/-- C7 (negated-tag directive placement) does not hold of the code: on the source
`package p\n\nvar x = 1\n\n//go:generate include\n` the pass is successful, and the pass over
the comments copies `source[0:22]`, which holds the declaration `var x = 1` (offsets 11 to 19),
before the two negated-tag lines are written: in the assembled buffer the bytes of the
declaration come before the two lines. -/
theorem tag_lines_follow_declaration :
    (exampleEnv trailingDirectiveSource trailingDirectiveFile).parseFile (ascii "p.go")
        trailingDirectiveSource = .ok trailingDirectiveFile ∧
    slice trailingDirectiveSource 11 20 = some (ascii "var x = 1") ∧
    slice trailingDirectiveSource 22 43 = some (ascii "//go:generate include") ∧
    assemble (exampleEnv trailingDirectiveSource trailingDirectiveFile) (withDefaultTag noOptions)
        trailingDirectiveSource trailingDirectiveFile
      = .buffer
          (ascii "//Code generated by include. DO NOT EDIT.\n\n" ++
            ascii "package p\n\nvar x = 1\n\n" ++
            ascii "//go:build !include\n// +build !include\n")
          { out := ascii "//Code generated by include. DO NOT EDIT.\n\n" ++
              ascii "package p\n\nvar x = 1\n\n" ++
              ascii "//go:build !include\n// +build !include\n"
            lastWriteOffset := 44
            inspectErr := none
            reads := []
            slices := [(0, 22), (44, 44)] } ∧
    Include (exampleEnv trailingDirectiveSource trailingDirectiveFile) (ascii "p.go")
        trailingDirectiveSource noOptions
      = .returned (some (ascii "//Code generated by include. DO NOT EDIT.\n\n" ++
            ascii "package p\n\nvar x = 1\n\n" ++
            ascii "//go:build !include\n// +build !include\n")) none :=
  ⟨rfl, by decide, by decide, by decide, by decide⟩

/-! ## Rejected placeholder calls -/

theorem candidate_includeCall (p : Nat) (sel : Bytes) (arg : Expr) (rparen : Nat) :
    candidate? (includeCall p sel arg rparen)
      = some { sel := sel, arg := arg, pos := p, endPos := rparen + 1 } := by
  simp [candidate?, includeCall]

theorem slice_unquote (file : Bytes) :
    slice (34 :: file ++ [34]) 1 (((34 :: file ++ [34]).length : Int) - 1) = some file := by
  have hl : (34 :: file ++ [34]).length = file.length + 2 := by simp
  have h : (0 : Int) ≤ 1 ∧ (1 : Int) ≤ ((34 :: file ++ [34]).length : Int) - 1 ∧
      ((34 :: file ++ [34]).length : Int) - 1 ≤ ((34 :: file ++ [34]).length : Int) := by
    rw [hl]; push_cast
    refine ⟨trivial, ?_, ?_⟩ <;> omega
  have ht : (((34 :: file ++ [34]).length : Int) - 1).toNat - (1 : Int).toNat = file.length := by
    rw [hl, show ((file.length + 2 : Nat) : Int) - 1 = ((file.length + 1 : Nat) : Int) by
      push_cast; ring, Int.toNat_ofNat]
    show file.length + 1 - 1 = file.length
    omega
  rw [slice, if_pos h, ht]
  simp

theorem getLast_quoted (file : Bytes) : (34 :: file ++ [34]).getLast? = some 34 := by
  rw [show (34 :: file ++ [34] : Bytes) = (34 :: file) ++ [34] by simp]
  exact List.getLast?_concat _

/-- An unsupported selector with a quoted file name stops the pass with the message of line 148,
whatever the state. -/
theorem processValue_unknown_selector (env : Env) (options : Options) (source : Bytes)
    (st : State) (p : Nat) (name : Bytes) (vp : Nat) (file : Bytes) (rparen : Nat)
    (hs : name ≠ ascii "String") (hb : name ≠ ascii "Bytes") :
    processValue env options source st
        (includeCall p name (.basicLit vp (34 :: file ++ [34])) rparen)
      = .stop { st with inspectErr := some (unsupportedFunction name file) } := by
  simp only [processValue, candidate_includeCall, processCandidate, List.head?_cons,
    getLast_quoted,
    slice_unquote, dispatch, hs, hb]
  simp

/-- A stop at the value that follows the values `pre` of the top-level initializers ends the pass
in the error of that value. -/
theorem assemble_stop (env : Env) (options : Options) (source : Bytes) (f : File)
    (pre post : List Expr) (v : Expr) (st1 st2 : State) (msg : Bytes)
    (hvalues : topLevelValues f.Decls = pre ++ v :: post)
    (hdirectives : commentsLoop source options.BuildTag initialState f.Comments = .next st1)
    (hearlier : forEach (processValue env options source) (afterTagLines options.BuildTag st1) pre
      = .next st2)
    (hstop : processValue env options source st2 v = .stop { st2 with inspectErr := some msg }) :
    assemble env options source f = .failed msg { st2 with inspectErr := some msg } := by
  have hi : inspectFile env options source initialState f
      = .stop { st2 with inspectErr := some msg } := by
    rw [inspectFile_eq, hdirectives, hvalues]
    simp only [Flow.bind, forEach_append, hearlier, forEach, hstop]
  simp only [assemble, hi]

/-- Rejection of an unsupported selector that the pass reaches: when the pass reaches, without
error or fault in the
directive pass or at an earlier initializer, a top-level initializer `include.<name>("<file>")`
with one double-quoted argument and a name other than `String` and `Bytes`, `Include` returns no
bytes and the error `unsupported function call include.<name> in <file>`, whose message contains
the name; the trace of file reads is what it was before that call. -/
theorem unsupported_selector_rejected (env : Env) (filename source : Bytes) (options : Options)
    (f : File) (pre post : List Expr) (p : Nat) (name : Bytes) (vp : Nat) (file : Bytes)
    (rparen : Nat) (st1 st2 : State)
    (hparse : env.parseFile filename source = .ok f)
    (hvalues : topLevelValues f.Decls
      = pre ++ includeCall p name (.basicLit vp (34 :: file ++ [34])) rparen :: post)
    (hname : name ≠ ascii "String" ∧ name ≠ ascii "Bytes")
    (hdirectives : commentsLoop source (withDefaultTag options).BuildTag initialState f.Comments
      = .next st1)
    (hearlier : forEach (processValue env (withDefaultTag options) source)
      (afterTagLines (withDefaultTag options).BuildTag st1) pre = .next st2) :
    Include env filename source options
      = .returned none
          (some (ascii "unsupported function call include." ++ name ++ ascii " in " ++ file)) ∧
    name <:+: ascii "unsupported function call include." ++ name ++ ascii " in " ++ file ∧
    ∃ st, assemble env (withDefaultTag options) source f
        = .failed (ascii "unsupported function call include." ++ name ++ ascii " in " ++ file) st ∧
      st.reads = st2.reads := by
  have ha := assemble_stop env (withDefaultTag options) source f pre post _ st1 st2
    (unsupportedFunction name file) hvalues hdirectives hearlier
    (processValue_unknown_selector env _ source st2 p name vp file rparen hname.1 hname.2)
  refine ⟨?_, ⟨ascii "unsupported function call include.", ascii " in " ++ file, by simp⟩,
    _, ha, rfl⟩
  simp only [Include, hparse, ha]
  rfl

/-- The rejection of an unsupported selector on the source
`package p\n\nvar x = include.Foo("x.txt")\n`. -/
theorem unsupported_selector_rejected_witness :
    Include (exampleEnv unknownSelectorSource unknownSelectorFile) (ascii "p.go")
        unknownSelectorSource noOptions
      = .returned none
          (some (ascii "unsupported function call include." ++ ascii "Foo" ++ ascii " in " ++
            ascii "x.txt")) ∧
    ascii "Foo" <:+: ascii "unsupported function call include." ++ ascii "Foo" ++ ascii " in " ++
      ascii "x.txt" ∧
    ∃ st, assemble (exampleEnv unknownSelectorSource unknownSelectorFile)
          (withDefaultTag noOptions) unknownSelectorSource unknownSelectorFile
        = .failed (ascii "unsupported function call include." ++ ascii "Foo" ++ ascii " in " ++
            ascii "x.txt") st ∧
      st.reads = (afterTagLines (ascii "include") initialState).reads :=
  unsupported_selector_rejected (exampleEnv unknownSelectorSource unknownSelectorFile)
    (ascii "p.go") unknownSelectorSource noOptions unknownSelectorFile [] [] 20 (ascii "Foo") 32
    (ascii "x.txt") 39 initialState (afterTagLines (ascii "include") initialState)
    rfl rfl (by decide) rfl rfl

/-- An argument that is no double-quoted literal stops the pass with the message of lines 123
and 127, whatever the selector and the state. -/
theorem processValue_bad_argument (env : Env) (options : Options) (source : Bytes)
    (st : State) (p : Nat) (name : Bytes) (arg : Expr) (rparen : Nat)
    (hquoted : ∀ vp value, arg = .basicLit vp value →
      ¬ (value.head? = some 34 ∧ value.getLast? = some 34))
    (htoken : ∀ vp value, arg = .basicLit vp value → value ≠ []) :
    processValue env options source st (includeCall p name arg rparen)
      = .stop { st with inspectErr := some (unsupportedArgument name) } := by
  simp only [processValue, candidate_includeCall, processCandidate]
  cases arg with
  | basicLit vp value =>
    have hq := hquoted vp value rfl
    have ht := htoken vp value rfl
    cases value with
    | nil => exact absurd rfl ht
    | cons c cs =>
      obtain ⟨last, hlast⟩ : ∃ last, (c :: cs).getLast? = some last :=
        ⟨(c :: cs).getLast (by simp), List.getLast?_eq_getLast _ (by simp)⟩
      simp only [List.head?_cons, hlast]
      have : c ≠ 34 ∨ last ≠ 34 := by
        by_contra hcon
        push_neg at hcon
        exact hq ⟨by simp [hcon.1], by rw [hlast, hcon.2]⟩
      simp only [ne_eq, this, if_true]
  | ident _ _ => rfl
  | selectorExpr _ _ => rfl
  | callExpr _ _ _ => rfl
  | binaryExpr _ _ => rfl
  | other _ => rfl

/-- C10 as amended (non-literal argument rejection): when the pass reaches, without error or
fault in the directive pass or at an earlier initializer, a top-level initializer
`include.<name>(arg)` with one argument that is not a basic literal whose text starts and ends
with a double quote, `Include` returns no bytes and the error
`unsupported argument when calling include.<name> in : only strings are supported`, whose
message contains the name, for every name. -/
theorem non_literal_argument_rejected (env : Env) (filename source : Bytes) (options : Options)
    (f : File) (pre post : List Expr) (p : Nat) (name : Bytes) (arg : Expr) (rparen : Nat)
    (st1 st2 : State)
    (hparse : env.parseFile filename source = .ok f)
    (hvalues : topLevelValues f.Decls = pre ++ includeCall p name arg rparen :: post)
    (hquoted : ∀ vp value, arg = .basicLit vp value →
      ¬ (value.head? = some 34 ∧ value.getLast? = some 34))
    (htoken : ∀ vp value, arg = .basicLit vp value → value ≠ [])
    (hdirectives : commentsLoop source (withDefaultTag options).BuildTag initialState f.Comments
      = .next st1)
    (hearlier : forEach (processValue env (withDefaultTag options) source)
      (afterTagLines (withDefaultTag options).BuildTag st1) pre = .next st2) :
    Include env filename source options
      = .returned none
          (some (ascii "unsupported argument when calling include." ++ name ++
            ascii " in : only strings are supported")) ∧
    name <:+: ascii "unsupported argument when calling include." ++ name ++
      ascii " in : only strings are supported" := by
  have ha := assemble_stop env (withDefaultTag options) source f pre post _ st1 st2
    (unsupportedArgument name) hvalues hdirectives hearlier
    (processValue_bad_argument env _ source st2 p name arg rparen hquoted htoken)
  refine ⟨?_, ⟨ascii "unsupported argument when calling include.",
    ascii " in : only strings are supported", by simp⟩⟩
  simp only [Include, hparse, ha]
  simp [unsupportedArgument, ascii]

/-- The rejection of C10 on the source `package p\n\nvar x = include.String(someVar)\n`. -/
theorem non_literal_argument_rejected_witness :
    Include (exampleEnv variableArgumentSource variableArgumentFile) (ascii "p.go")
        variableArgumentSource noOptions
      = .returned none
          (some (ascii "unsupported argument when calling include." ++ ascii "String" ++
            ascii " in : only strings are supported")) ∧
    ascii "String" <:+: ascii "unsupported argument when calling include." ++ ascii "String" ++
      ascii " in : only strings are supported" :=
  non_literal_argument_rejected (exampleEnv variableArgumentSource variableArgumentFile)
    (ascii "p.go") variableArgumentSource noOptions variableArgumentFile [] [] 20 (ascii "String")
    (.ident 35 (ascii "someVar")) 42 initialState (afterTagLines (ascii "include") initialState)
    rfl rfl (by simp) (by simp) rfl rfl

/-- C10 as stated fails: in the source
`package p\n\nvar x = include.Foo("x.txt")\nvar y = include.String(someVar)\n` the second
top-level initializer is `include.String(someVar)`, a call with one argument that is no
literal, yet `Include` returns the error of the first call,
`unsupported function call include.Foo in x.txt`: no unsupported-argument error, and its
message does not contain the name `String`. -/
theorem non_literal_argument_not_always_reported :
    (exampleEnv twoFailuresSource twoFailuresFile).parseFile (ascii "p.go") twoFailuresSource
      = .ok twoFailuresFile ∧
    topLevelValues twoFailuresFile.Decls
      = [includeCall 20 (ascii "Foo") (.basicLit 32 (ascii "\"x.txt\"")) 39,
         includeCall 49 (ascii "String") (.ident 64 (ascii "someVar")) 71] ∧
    slice twoFailuresSource 48 71 = some (ascii "include.String(someVar)") ∧
    Include (exampleEnv twoFailuresSource twoFailuresFile) (ascii "p.go") twoFailuresSource
        noOptions
      = .returned none (some (ascii "unsupported function call include.Foo in x.txt")) ∧
    ¬ (ascii "unsupported argument" <+: ascii "unsupported function call include.Foo in x.txt") ∧
    ¬ (ascii "String" <:+: ascii "unsupported function call include.Foo in x.txt") :=
  ⟨rfl, rfl, by decide, by decide, by decide, by decide⟩

/-! ## The encoders, continued -/

/-- C13 as amended (empty input): for zero-length content `fileContentAsBytes` returns the
opening token with its line break directly followed by the closing token with its line breaks,
that is `[]byte{`, two line breaks, `}` and a line break, with no element text; read as an array
literal it has no element. -/
theorem empty_input_literal (env : Env) (filename : Bytes) (options : Options)
    (hread : readFile env filename options = .ok []) :
    fileContentAsBytes env filename options
      = .ok (ascii "[]byte\x7b" ++ [10, 10] ++ ascii "\x7d" ++ [10]) ∧
    decodeBytesLiteral (ascii "[]byte\x7b" ++ [10, 10] ++ ascii "\x7d" ++ [10]) = some [] := by
  constructor
  · simp only [fileContentAsBytes, hread, bytesLoop]
    rfl
  · decide

/-- The literal of C13 for an empty file. -/
theorem empty_input_literal_witness :
    fileContentAsBytes (singleFileEnv [102] [] (parseOnly [] ⟨[], []⟩)) [102] noOptions
      = .ok (ascii "[]byte\x7b" ++ [10, 10] ++ ascii "\x7d" ++ [10]) ∧
    decodeBytesLiteral (ascii "[]byte\x7b" ++ [10, 10] ++ ascii "\x7d" ++ [10]) = some [] :=
  empty_input_literal _ [102] noOptions rfl

/-- C13 as stated fails: for the empty file the output is `[]byte{\n\n}\n`; it is not the
opening token `[]byte{` directly followed by `}`, two line breaks stand between them (and one
after). -/
theorem empty_input_has_line_breaks :
    readFile (singleFileEnv [102] [] (parseOnly [] ⟨[], []⟩)) [102] noOptions = .ok [] ∧
    fileContentAsBytes (singleFileEnv [102] [] (parseOnly [] ⟨[], []⟩)) [102] noOptions
      = .ok (ascii "[]byte\x7b\n\n\x7d\n") ∧
    ascii "[]byte\x7b\n\n\x7d\n" = ascii "[]byte\x7b" ++ [10, 10] ++ ascii "\x7d" ++ [10] ∧
    ¬ (ascii "[]byte\x7b" ++ ascii "\x7d" <:+: ascii "[]byte\x7b\n\n\x7d\n") :=
  ⟨rfl, rfl, by decide, by decide⟩

theorem escapeBackquotes_eq_flatMap (content : Bytes) :
    escapeBackquotes content = content.flatMap (fun b => if b = 96 then [92, 96] else [b]) := by
  induction content with
  | nil => rfl
  | cons c s ih =>
    by_cases hc : c = 96 <;> simp [escapeBackquotes, hc, ih]

theorem length_escapeBackquotes (content : Bytes) :
    (escapeBackquotes content).length = content.length + content.count 96 := by
  induction content with
  | nil => rfl
  | cons c s ih =>
    by_cases hc : c = 96
    · simp [escapeBackquotes, hc, ih]; omega
    · simp [escapeBackquotes, hc, ih, List.count_cons]; omega

theorem head_escapeBackquotes (content : Bytes) : (escapeBackquotes content).head? ≠ some 96 := by
  cases content with
  | nil => simp [escapeBackquotes]
  | cons c s =>
    by_cases hc : c = 96 <;> simp [escapeBackquotes, hc]

/-- In the escaped text every backquote has a backslash directly before it. -/
theorem backslash_before_backquote (content : Bytes) : ∀ j : Nat,
    (escapeBackquotes content)[j]? = some 96 →
      ∃ k, j = k + 1 ∧ (escapeBackquotes content)[k]? = some 92 := by
  induction content with
  | nil => intro j h; simp [escapeBackquotes] at h
  | cons c s ih =>
    intro j h
    by_cases hc : c = 96
    · simp only [escapeBackquotes, hc, if_true] at h ⊢
      match j, h with
      | 0, h => simp at h
      | 1, _ => exact ⟨0, rfl, rfl⟩
      | j + 2, h =>
        simp only [List.getElem?_cons_succ] at h
        obtain ⟨k, hk, hk2⟩ := ih j h
        exact ⟨j + 1, rfl, by subst hk; simpa using hk2⟩
    · simp only [escapeBackquotes, hc, if_false] at h ⊢
      match j, h with
      | 0, h => simp at h; exact absurd h hc
      | j + 1, h =>
        simp only [List.getElem?_cons_succ] at h
        obtain ⟨k, hk, hk2⟩ := ih j h
        exact ⟨j, rfl, by subst hk; simpa using hk2⟩

/-- C15 (escaping form): the output of `fileContentAsString` is a backquote, the content with
every backquote replaced by backslash and backquote and every other byte copied in order, and a
backquote; its length is the length of the content plus two plus the number of backquotes in the
content; every backquote strictly inside the output has a backslash directly before it. -/
theorem escaping_form (env : Env) (filename : Bytes) (options : Options) (content : Bytes)
    (hread : readFile env filename options = .ok content) :
    ∃ out, fileContentAsString env filename options = .ok out ∧
      out = [96] ++ content.flatMap (fun b => if b = 96 then [92, 96] else [b]) ++ [96] ∧
      out.length = content.length + 2 + content.count 96 ∧
      ∀ i : Nat, 0 < i → i + 1 < out.length → out[i]? = some 96 → out[i - 1]? = some 92 := by
  refine ⟨[96] ++ escapeBackquotes content ++ [96], by simp [fileContentAsString, hread],
    by rw [escapeBackquotes_eq_flatMap], ?_, ?_⟩
  · simp [length_escapeBackquotes]; omega
  · intro i h0 hlen hi
    obtain ⟨j, rfl⟩ : ∃ j, i = j + 1 := ⟨i - 1, by omega⟩
    have hj : j < (escapeBackquotes content).length := by
      simp only [List.length_append, List.length_singleton, List.length_cons,
        List.length_nil] at hlen
      omega
    have h1 : (escapeBackquotes content)[j]? = some 96 := by
      simpa [List.getElem?_append, hj] using hi
    obtain ⟨k, rfl, hk⟩ := backslash_before_backquote content j h1
    have hk' : k < (escapeBackquotes content).length := by omega
    simpa [List.getElem?_append, hk'] using hk

/-- The form of C15 on the content "a\x60b". -/
theorem escaping_form_witness :
    ∃ out, fileContentAsString (singleFileEnv [102] (ascii "a\x60b") (parseOnly [] ⟨[], []⟩))
        [102] noOptions = .ok out ∧
      out = [96] ++ (ascii "a\x60b").flatMap (fun b => if b = 96 then [92, 96] else [b]) ++ [96] ∧
      out.length = (ascii "a\x60b").length + 2 + (ascii "a\x60b").count 96 ∧
      ∀ i : Nat, 0 < i → i + 1 < out.length → out[i]? = some 96 → out[i - 1]? = some 92 :=
  escaping_form _ [102] noOptions (ascii "a\x60b") rfl

theorem split_at_backquote (content : Bytes) (hmem : 96 ∈ content) :
    ∃ pre tail, content = pre ++ 96 :: tail ∧ 96 ∉ pre := by
  induction content with
  | nil => simp at hmem
  | cons c s ih =>
    by_cases hc : c = 96
    · exact ⟨[], s, by simp [hc], by simp⟩
    · have hs : 96 ∈ s := by
        rcases List.mem_cons.1 hmem with h | h
        · exact absurd h.symm hc
        · exact h
      obtain ⟨pre, tail, h1, h2⟩ := ih hs
      refine ⟨c :: pre, tail, by simp [h1], ?_⟩
      intro h
      rcases List.mem_cons.1 h with h | h
      · exact hc h.symm
      · exact h2 h

theorem escapeBackquotes_append (xs ys : Bytes) :
    escapeBackquotes (xs ++ ys) = escapeBackquotes xs ++ escapeBackquotes ys := by
  induction xs with
  | nil => rfl
  | cons c s ih =>
    by_cases hc : c = 96 <;> simp [escapeBackquotes, hc, ih]

theorem scanRawString_escaped (pre tail : Bytes) (hpre : 96 ∉ pre) :
    scanRawString ([96] ++ escapeBackquotes (pre ++ 96 :: tail) ++ [96])
      = some (pre ++ [92], escapeBackquotes tail ++ [96]) := by
  have hall : ∀ c ∈ pre ++ [92], (decide (c ≠ 96)) = true := by
    intro c hc
    rcases List.mem_append.1 hc with h | h
    · have : c ≠ 96 := fun e => hpre (e ▸ h)
      simpa using this
    · simp at h; simp [h]
  have hform : escapeBackquotes (pre ++ 96 :: tail) ++ [96]
      = (pre ++ [92]) ++ 96 :: (escapeBackquotes tail ++ [96]) := by
    rw [escapeBackquotes_append, escapeBackquotes_of_not_mem pre hpre]
    simp [escapeBackquotes]
  have hd : (escapeBackquotes (pre ++ 96 :: tail) ++ [96]).dropWhile (fun c => c ≠ 96)
      = 96 :: (escapeBackquotes tail ++ [96]) := by
    rw [hform, List.dropWhile_append_of_pos hall]; simp [List.dropWhile]
  have ht : (escapeBackquotes (pre ++ 96 :: tail) ++ [96]).takeWhile (fun c => c ≠ 96)
      = pre ++ [92] := by
    rw [hform, List.takeWhile_append_of_pos hall]; simp [List.takeWhile]
  simp only [List.singleton_append, List.cons_append, List.nil_append, scanRawString]
  rw [hd, ht]

/-- C16 (delimiter caveat): for content with at least one backquote, reading the output of
`fileContentAsString` by the raw-string rules (the literal ends at the first backquote after the
opening one, a backslash means itself) does not give back the content: the literal ends at the
first backquote of the content, its text is the part of the content before that backquote, a
proper prefix, followed by a backslash, and a non-empty rest of the output lies behind the
literal. Discarding carriage returns from that text does not give the content either. -/
theorem delimiter_caveat (env : Env) (filename : Bytes) (options : Options) (content : Bytes)
    (hread : readFile env filename options = .ok content) (hmem : 96 ∈ content) :
    ∃ out, fileContentAsString env filename options = .ok out ∧
      decodeRawString out ≠ some content ∧
      ∃ pre tail rest, content = pre ++ 96 :: tail ∧ 96 ∉ pre ∧
        pre.length < content.length ∧
        scanRawString out = some (pre ++ [92], rest) ∧ rest ≠ [] ∧
        pre ++ [92] ≠ content ∧ (pre ++ [92]).filter (fun c => c ≠ 13) ≠ content := by
  obtain ⟨pre, tail, hsplit, hpre⟩ := split_at_backquote content hmem
  have hscan := scanRawString_escaped pre tail hpre
  rw [← hsplit] at hscan
  have hno : ∀ l : Bytes, 96 ∉ l → l ≠ content := fun l hl e => hl (e ▸ hmem)
  have h92 : 96 ∉ pre ++ [92] := by
    intro h
    rcases List.mem_append.1 h with h | h
    · exact hpre h
    · simp at h
  refine ⟨[96] ++ escapeBackquotes content ++ [96], by simp [fileContentAsString, hread], ?_,
    pre, tail, escapeBackquotes tail ++ [96], hsplit, hpre, ?_, hscan, by simp, hno _ h92,
    hno _ (fun h => h92 (List.mem_filter.1 h).1)⟩
  · simp only [decodeRawString, hscan]
    cases hrest : escapeBackquotes tail ++ [96] with
    | nil => simp at hrest
    | cons _ _ => simp
  · rw [hsplit]; simp

/-- The caveat of C16 on the content "a\x60b": the literal ends after "a\\". -/
theorem delimiter_caveat_witness :
    (∃ out, fileContentAsString (singleFileEnv [102] (ascii "a\x60b") (parseOnly [] ⟨[], []⟩))
        [102] noOptions = .ok out ∧
      decodeRawString out ≠ some (ascii "a\x60b") ∧
      ∃ pre tail rest, ascii "a\x60b" = pre ++ 96 :: tail ∧ 96 ∉ pre ∧
        pre.length < (ascii "a\x60b").length ∧
        scanRawString out = some (pre ++ [92], rest) ∧ rest ≠ [] ∧
        pre ++ [92] ≠ ascii "a\x60b" ∧
        (pre ++ [92]).filter (fun c => c ≠ 13) ≠ ascii "a\x60b") ∧
    scanRawString (ascii "\x60a\\\x60b\x60") = some (ascii "a\\", ascii "b\x60") :=
  ⟨delimiter_caveat _ [102] noOptions (ascii "a\x60b") rfl (by decide), by decide⟩

theorem unescape_escape (content : Bytes) :
    unescapeBackquotes (escapeBackquotes content) = content := by
  induction content with
  | nil => rfl
  | cons c s ih =>
    by_cases hc : c = 96
    · simp [escapeBackquotes, unescapeBackquotes, hc, ih]
    · have hh := head_escapeBackquotes s
      simp [escapeBackquotes, unescapeBackquotes, hc, ih, hh]

theorem literal_inside (esc : Bytes) : (([96] ++ esc ++ [96]).drop 1).dropLast = esc := by
  simp

/-- C19 (invertibility of the escaping): taking the output of `fileContentAsString` without its
first and its last byte and deleting the backslash directly before each backquote gives back
the content; so two reads that lead to the same literal delivered the same content. -/
theorem escaping_invertible (env : Env) (filename : Bytes) (options : Options) (content : Bytes)
    (hread : readFile env filename options = .ok content) :
    (∃ out, fileContentAsString env filename options = .ok out ∧
      unescapeBackquotes ((out.drop 1).dropLast) = content) ∧
    ∀ (env2 : Env) (filename2 : Bytes) (options2 : Options) (content2 : Bytes),
      readFile env2 filename2 options2 = .ok content2 →
      fileContentAsString env2 filename2 options2 = fileContentAsString env filename options →
      content2 = content := by
  have hout : fileContentAsString env filename options
      = .ok ([96] ++ escapeBackquotes content ++ [96]) := by
    simp [fileContentAsString, hread]
  refine ⟨⟨_, hout, by rw [literal_inside, unescape_escape]⟩, ?_⟩
  intro env2 filename2 options2 content2 hread2 heq
  have hout2 : fileContentAsString env2 filename2 options2
      = .ok ([96] ++ escapeBackquotes content2 ++ [96]) := by
    simp [fileContentAsString, hread2]
  rw [hout, hout2] at heq
  have h := congrArg (fun l => unescapeBackquotes ((l.drop 1).dropLast)) (Except.ok.inj heq)
  simp only [literal_inside, unescape_escape] at h
  exact h

/-- The inversion of C19 on the content "a\\\x60b" (a backslash before a backquote). -/
theorem escaping_invertible_witness :
    ((∃ out, fileContentAsString (singleFileEnv [102] (ascii "a\\\x60b") (parseOnly [] ⟨[], []⟩))
        [102] noOptions = .ok out ∧
      unescapeBackquotes ((out.drop 1).dropLast) = ascii "a\\\x60b") ∧
    ∀ (env2 : Env) (filename2 : Bytes) (options2 : Options) (content2 : Bytes),
      readFile env2 filename2 options2 = .ok content2 →
      fileContentAsString env2 filename2 options2
        = fileContentAsString (singleFileEnv [102] (ascii "a\\\x60b") (parseOnly [] ⟨[], []⟩))
            [102] noOptions →
      content2 = ascii "a\\\x60b") ∧
    unescapeBackquotes (ascii "a\\\\\x60b") = ascii "a\\\x60b" :=
  ⟨escaping_invertible _ [102] noOptions (ascii "a\\\x60b") rfl, by decide⟩

/-! ## Options, faults and errors of the pass -/

/-- C14 (default tag): with the same environment, file name, source and working directory,
`Include` with an empty `BuildTag` gives the result it gives with the `BuildTag` `include`; the
pass then treats as directives the comments it treats as directives for `include`, and the
negated-tag lines are `//go:build !include` and `// +build !include`. -/
theorem default_tag (env : Env) (filename source workingDir : Bytes) :
    Include env filename source { BuildTag := [], WorkingDir := workingDir }
      = Include env filename source { BuildTag := ascii "include", WorkingDir := workingDir } ∧
    (∀ c : Comment,
      isDirective (withDefaultTag { BuildTag := [], WorkingDir := workingDir }).BuildTag c
        = isDirective (ascii "include") c) ∧
    negatedTagLines (withDefaultTag { BuildTag := [], WorkingDir := workingDir }).BuildTag
      = ascii "//go:build !include\n// +build !include\n" := by
  have h : withDefaultTag { BuildTag := [], WorkingDir := workingDir }
      = withDefaultTag { BuildTag := ascii "include", WorkingDir := workingDir } := by
    simp [withDefaultTag, DEFAULT_BUILD_TAG, ascii]
  have ht : (withDefaultTag { BuildTag := [], WorkingDir := workingDir }).BuildTag
      = ascii "include" := by
    simp [withDefaultTag, DEFAULT_BUILD_TAG]
  refine ⟨?_, fun c => by rw [ht], by rw [ht]; decide⟩
  simp only [Include, h]

/-- C18 (bounds safety of the tail copy) does not hold of the code: on the 38 bytes
`package p\n\nvar x = include.String("f")`, which end with the closing parenthesis of a
placeholder call, the pass leaves the cursor at 39 (the value of the call's `End()`), the final
slice `source[39:]` has its lower bound above the length 38 and `Include` faults; on the 31
bytes `package p\n//go:generate include`, which end with a matching comment, the cursor is left
at 32 and `Include` faults in the same way. -/
theorem tail_copy_out_of_range :
    (exampleEnv endingCallSource endingCallFile).parseFile (ascii "p.go") endingCallSource
      = .ok endingCallFile ∧
    endingCallSource.length = 38 ∧
    slice endingCallSource 19 38 = some (ascii "include.String(\"f\")") ∧
    assemble (exampleEnv endingCallSource endingCallFile) (withDefaultTag noOptions)
        endingCallSource endingCallFile
      = .panicked
          { out := ascii ("//Code generated by include. DO NOT EDIT.\n\n" ++
              "//go:build !include\n// +build !include\n" ++ "package p\n\nvar x = \x60hello\x60")
            lastWriteOffset := 39
            inspectErr := none
            reads := [ascii "f"]
            slices := [(0, 19), (39, 38)] } ∧
    Include (exampleEnv endingCallSource endingCallFile) (ascii "p.go") endingCallSource noOptions
      = .panicked ∧
    (exampleEnv endingDirectiveSource endingDirectiveFile).parseFile (ascii "p.go")
        endingDirectiveSource = .ok endingDirectiveFile ∧
    endingDirectiveSource.length = 31 ∧
    slice endingDirectiveSource 10 31 = some (ascii "//go:generate include") ∧
    assemble (exampleEnv endingDirectiveSource endingDirectiveFile) (withDefaultTag noOptions)
        endingDirectiveSource endingDirectiveFile
      = .panicked
          { out := ascii ("//Code generated by include. DO NOT EDIT.\n\n" ++ "package p\n" ++
              "//go:build !include\n// +build !include\n")
            lastWriteOffset := 32
            inspectErr := none
            reads := []
            slices := [(0, 10), (32, 31)] } ∧
    Include (exampleEnv endingDirectiveSource endingDirectiveFile) (ascii "p.go")
        endingDirectiveSource noOptions = .panicked :=
  ⟨rfl, by decide, by decide, by decide, by decide, rfl, by decide, by decide, by decide,
    by decide⟩

theorem writeUpTo_cases (source : Bytes) (st : State) (pos : Nat) :
    (∃ seg, slice source st.lastWriteOffset ((pos : Int) - 1) = some seg ∧
      writeUpTo source st pos
        = .next { st with out := st.out ++ seg,
                          slices := st.slices ++ [(st.lastWriteOffset, (pos : Int) - 1)] }) ∨
    (slice source st.lastWriteOffset ((pos : Int) - 1) = none ∧
      writeUpTo source st pos
        = .panic { st with slices := st.slices ++ [(st.lastWriteOffset, (pos : Int) - 1)] }) := by
  unfold writeUpTo
  dsimp only
  split
  · rename_i h; right; exact ⟨h, rfl⟩
  · rename_i seg h; left; exact ⟨seg, h, rfl⟩

theorem splice_ne_stop (source : Bytes) (st : State) (c : Candidate) (replacement : Bytes)
    (st3 : State) : splice source st c replacement ≠ .stop st3 := by
  unfold splice
  rcases writeUpTo_cases source st c.pos with ⟨seg, _, h⟩ | ⟨_, h⟩ <;> simp [h, Flow.bind]

theorem fileContentAsString_error (env : Env) (filename : Bytes) (options : Options)
    (err : Bytes) (h : fileContentAsString env filename options = .error err) :
    readFile env filename options = .error err := by
  unfold fileContentAsString at h
  split at h
  · rename_i e he; rw [he]; simpa using h
  · simp at h

theorem fileContentAsBytes_error (env : Env) (filename : Bytes) (options : Options)
    (err : Bytes) (h : fileContentAsBytes env filename options = .error err) :
    readFile env filename options = .error err := by
  unfold fileContentAsBytes at h
  split at h
  · rename_i e he; rw [he]; simpa using h
  · simp at h

/-- A stop of the dispatch carries the unsupported-function message or the error of `readFile`;
the buffer and the cursor are as before. -/
theorem dispatch_stop (env : Env) (options : Options) (source : Bytes) (st st3 : State)
    (c : Candidate) (filename : Bytes)
    (h : dispatch env options source st c filename = .stop st3) :
    ∃ msg, st3.inspectErr = some msg ∧ st3.out = st.out ∧
      st3.lastWriteOffset = st.lastWriteOffset ∧
      (msg = unsupportedFunction c.sel filename ∨ readFile env filename options = .error msg) := by
  unfold dispatch at h
  split at h
  · split at h
    · rename_i err herr
      simp only [Flow.stop.injEq] at h
      subst h
      exact ⟨err, rfl, rfl, rfl, Or.inr (fileContentAsString_error _ _ _ _ herr)⟩
    · exact absurd h (splice_ne_stop _ _ _ _ _)
  · split at h
    · split at h
      · rename_i err herr
        simp only [Flow.stop.injEq] at h
        subst h
        exact ⟨err, rfl, rfl, rfl, Or.inr (fileContentAsBytes_error _ _ _ _ herr)⟩
      · exact absurd h (splice_ne_stop _ _ _ _ _)
    · simp only [Flow.stop.injEq] at h
      subst h
      exact ⟨_, rfl, rfl, rfl, Or.inl rfl⟩

/-- A value at which the pass stops is a placeholder call that fails in one of three ways:
unsupported argument, unsupported function, unreadable target; `inspectErr` holds its error, the
buffer and the cursor are as before. -/
theorem processValue_stop (env : Env) (options : Options) (source : Bytes) (st st3 : State)
    (v : Expr) (h : processValue env options source st v = .stop st3) :
    ∃ c msg, candidate? v = some c ∧ st3.inspectErr = some msg ∧ st3.out = st.out ∧
      st3.lastWriteOffset = st.lastWriteOffset ∧
      (msg = unsupportedArgument c.sel ∨ (∃ file, msg = unsupportedFunction c.sel file) ∨
        (∃ file, readFile env file options = .error msg)) := by
  unfold processValue at h
  split at h
  · simp at h
  · rename_i c hc
    refine ⟨c, ?_⟩
    unfold processCandidate at h
    split at h
    · split at h
      · split at h
        · simp only [Flow.stop.injEq] at h
          subst h
          exact ⟨_, hc, rfl, rfl, rfl, Or.inl rfl⟩
        · split at h
          · simp at h
          · rename_i file _
            obtain ⟨msg, h1, h2, h3, h4⟩ := dispatch_stop _ _ _ _ _ _ _ h
            refine ⟨msg, hc, h1, h2, h3, ?_⟩
            rcases h4 with h4 | h4
            · exact Or.inr (Or.inl ⟨file, h4⟩)
            · exact Or.inr (Or.inr ⟨file, h4⟩)
      · simp at h
    · simp only [Flow.stop.injEq] at h
      subst h
      exact ⟨_, hc, rfl, rfl, rfl, Or.inl rfl⟩

theorem assemble_stop_state (env : Env) (options : Options) (source : Bytes) (f : File)
    (pre post : List Expr) (v : Expr) (st1 st2 st3 : State) (msg : Bytes)
    (hvalues : topLevelValues f.Decls = pre ++ v :: post)
    (hdirectives : commentsLoop source options.BuildTag initialState f.Comments = .next st1)
    (hearlier : forEach (processValue env options source) (afterTagLines options.BuildTag st1) pre
      = .next st2)
    (hstop : processValue env options source st2 v = .stop st3)
    (hmsg : st3.inspectErr = some msg) :
    assemble env options source f = .failed msg st3 := by
  have hi : inspectFile env options source initialState f = .stop st3 := by
    rw [inspectFile_eq, hdirectives, hvalues]
    simp only [Flow.bind, forEach_append, hearlier, forEach, hstop]
  simp only [assemble, hi, hmsg]

/-- `Include` returns bytes or an error, never both and never neither. -/
theorem Include_returns_one (env : Env) (filename source : Bytes) (options : Options)
    (out err : Option Bytes) (h : Include env filename source options = .returned out err) :
    (out = none ∧ err ≠ none) ∨ (out ≠ none ∧ err = none) := by
  unfold Include at h
  split at h
  · simp only [Result.returned.injEq] at h
    obtain ⟨rfl, rfl⟩ := h
    simp
  · dsimp only at h
    split at h
    · simp at h
    · simp only [Result.returned.injEq] at h
      obtain ⟨rfl, rfl⟩ := h
      simp
    · unfold processImports at h
      split at h <;>
      · simp only [Result.returned.injEq] at h
        obtain ⟨rfl, rfl⟩ := h
        simp

/-- First error only, for a failing call that the pass reaches: when the directive pass and the
initializers `pre` before
the value `v` are handled without error or fault and the pass stops at `v`, then `v` is a
placeholder call that fails by an unsupported argument, an unsupported function or an unreadable
target, and `Include` returns the error of `v` and no bytes; the pass ends in the state in which
it stopped at `v`, and what comes after `v` has no influence: no later call is processed or
read. Whenever `Include` returns, it returns bytes or an error, never both. -/
theorem first_error_only (env : Env) (filename source : Bytes) (options : Options)
    (f : File) (pre post : List Expr) (v : Expr) (st1 st2 st3 : State)
    (hparse : env.parseFile filename source = .ok f)
    (hvalues : topLevelValues f.Decls = pre ++ v :: post)
    (hdirectives : commentsLoop source (withDefaultTag options).BuildTag initialState f.Comments
      = .next st1)
    (hearlier : forEach (processValue env (withDefaultTag options) source)
      (afterTagLines (withDefaultTag options).BuildTag st1) pre = .next st2)
    (hfail : processValue env (withDefaultTag options) source st2 v = .stop st3) :
    (∃ c msg, candidate? v = some c ∧
      (msg = unsupportedArgument c.sel ∨ (∃ file, msg = unsupportedFunction c.sel file) ∨
        (∃ file, readFile env file (withDefaultTag options) = .error msg)) ∧
      Include env filename source options = .returned none (some msg) ∧
      assemble env (withDefaultTag options) source f = .failed msg st3 ∧
      ∀ (f2 : File) (post2 : List Expr), f2.Comments = f.Comments →
        topLevelValues f2.Decls = pre ++ v :: post2 →
        assemble env (withDefaultTag options) source f2 = .failed msg st3) ∧
    ∀ (env2 : Env) (filename2 source2 : Bytes) (options2 : Options) (out err : Option Bytes),
      Include env2 filename2 source2 options2 = .returned out err →
      (out = none ∧ err ≠ none) ∨ (out ≠ none ∧ err = none) := by
  obtain ⟨c, msg, hc, hmsg, _, _, hkind⟩ := processValue_stop _ _ _ _ _ _ hfail
  have ha := assemble_stop_state env (withDefaultTag options) source f pre post v st1 st2 st3 msg
    hvalues hdirectives hearlier hfail hmsg
  refine ⟨⟨c, msg, hc, hkind, ?_, ha, ?_⟩, fun env2 filename2 source2 options2 out err h =>
    Include_returns_one env2 filename2 source2 options2 out err h⟩
  · simp only [Include, hparse, ha]
  · intro f2 post2 hcomments hvalues2
    exact assemble_stop_state env (withDefaultTag options) source f2 pre post2 v st1 st2 st3 msg
      hvalues2 (hcomments ▸ hdirectives) hearlier hfail hmsg

/-- The first error only, on the source
`package p\n\nvar x = include.Foo("x.txt")\nvar y = include.String(someVar)\n`: the error is that
of the first call, the second call is not looked at. -/
theorem first_error_only_witness :
    ((∃ c msg, candidate? (includeCall 20 (ascii "Foo") (.basicLit 32 (ascii "\"x.txt\"")) 39)
        = some c ∧
      (msg = unsupportedArgument c.sel ∨ (∃ file, msg = unsupportedFunction c.sel file) ∨
        (∃ file, readFile (exampleEnv twoFailuresSource twoFailuresFile) file
          (withDefaultTag noOptions) = .error msg)) ∧
      Include (exampleEnv twoFailuresSource twoFailuresFile) (ascii "p.go") twoFailuresSource
        noOptions = .returned none (some msg) ∧
      assemble (exampleEnv twoFailuresSource twoFailuresFile) (withDefaultTag noOptions)
          twoFailuresSource twoFailuresFile
        = .failed msg { afterTagLines (ascii "include") initialState with
            inspectErr := some (ascii "unsupported function call include.Foo in x.txt") } ∧
      ∀ (f2 : File) (post2 : List Expr), f2.Comments = twoFailuresFile.Comments →
        topLevelValues f2.Decls
          = [] ++ includeCall 20 (ascii "Foo") (.basicLit 32 (ascii "\"x.txt\"")) 39 :: post2 →
        assemble (exampleEnv twoFailuresSource twoFailuresFile) (withDefaultTag noOptions)
            twoFailuresSource f2
          = .failed msg { afterTagLines (ascii "include") initialState with
              inspectErr := some (ascii "unsupported function call include.Foo in x.txt") }) ∧
    ∀ (env2 : Env) (filename2 source2 : Bytes) (options2 : Options) (out err : Option Bytes),
      Include env2 filename2 source2 options2 = .returned out err →
      (out = none ∧ err ≠ none) ∨ (out ≠ none ∧ err = none)) ∧
    Include (exampleEnv twoFailuresSource twoFailuresFile) (ascii "p.go") twoFailuresSource
      noOptions
      = .returned none (some (ascii "unsupported function call include.Foo in x.txt")) :=
  ⟨first_error_only (exampleEnv twoFailuresSource twoFailuresFile) (ascii "p.go")
    twoFailuresSource noOptions twoFailuresFile []
    [includeCall 49 (ascii "String") (.ident 64 (ascii "someVar")) 71]
    (includeCall 20 (ascii "Foo") (.basicLit 32 (ascii "\"x.txt\"")) 39)
    initialState (afterTagLines (ascii "include") initialState)
    { afterTagLines (ascii "include") initialState with
      inspectErr := some (ascii "unsupported function call include.Foo in x.txt") }
    rfl rfl rfl rfl (by decide), by decide⟩

/-! ## Which source bytes reach the buffer -/

theorem drop_take_infix (l : Bytes) (lo s e hi : Nat) (h1 : lo ≤ s) (h2 : s ≤ e) (h3 : e ≤ hi) :
    (l.drop s).take (e - s) <:+: (l.drop lo).take (hi - lo) := by
  have h : (l.drop s).take (e - s) = (((l.drop lo).take (hi - lo)).drop (s - lo)).take (e - s) := by
    rw [List.drop_take, List.drop_drop, List.take_take]
    congr 1
    · omega
    · congr 1; omega
  rw [h]
  exact (List.take_prefix _ _).isInfix.trans (List.drop_suffix _ _).isInfix

theorem slice_eq_some (source : Bytes) (lo hi : Int) (piece : Bytes)
    (h : slice source lo hi = some piece) :
    0 ≤ lo ∧ lo ≤ hi ∧ hi ≤ (source.length : Int) ∧
      piece = (source.drop lo.toNat).take (hi.toNat - lo.toNat) := by
  unfold slice at h
  split at h
  · rename_i hc
    exact ⟨hc.1, hc.2.1, hc.2.2, (Option.some.inj h).symm⟩
  · simp at h

/-- A span inside a copied slice is part of what is copied. -/
theorem slice_infix (source : Bytes) (lo hi s e : Int) (piece : Bytes)
    (hpiece : slice source lo hi = some piece) (h1 : lo ≤ s) (h2 : s ≤ e) (h3 : e ≤ hi) :
    ∃ seg, slice source s e = some seg ∧ seg <:+: piece := by
  obtain ⟨h0, _, hlen, rfl⟩ := slice_eq_some source lo hi piece hpiece
  have hc : 0 ≤ s ∧ s ≤ e ∧ e ≤ (source.length : Int) := ⟨by omega, h2, by omega⟩
  refine ⟨(source.drop s.toNat).take (e.toNat - s.toNat), by rw [slice, if_pos hc], ?_⟩
  exact drop_take_infix source lo.toNat s.toNat e.toNat hi.toNat (by omega) (by omega) (by omega)

/-- Copying the source up to a skipped span `[a, b)` and moving the cursor to `b` keeps the span
`[s, e)` when the two spans do not meet. -/
theorem Kept_skip (source : Bytes) (s e a b : Int) (st st1 : State) (piece extra : Bytes)
    (hs : s ≤ e) (hkept : Kept source s e st)
    (hpiece : slice source st.lastWriteOffset a = some piece)
    (hout : st1.out = st.out ++ piece ++ extra) (hcursor : st1.lastWriteOffset = b)
    (hapart : e ≤ a ∨ b ≤ s) : Kept source s e st1 := by
  rcases hkept with ⟨seg, hseg, hin⟩ | hle
  · left
    refine ⟨seg, hseg, ?_⟩
    rw [hout, List.append_assoc]
    exact hin.trans (List.prefix_append _ _).isInfix
  · rcases hapart with h | h
    · left
      obtain ⟨seg, hseg, hin⟩ := slice_infix source _ a s e piece hpiece hle hs h
      refine ⟨seg, hseg, ?_⟩
      rw [hout]
      exact hin.trans (List.infix_append _ _ _)
    · right
      rw [hcursor]; exact h

theorem Kept_append (source : Bytes) (s e : Int) (st st1 : State) (extra : Bytes)
    (hkept : Kept source s e st) (hout : st1.out = st.out ++ extra)
    (hcursor : st1.lastWriteOffset = st.lastWriteOffset) : Kept source s e st1 := by
  rcases hkept with ⟨seg, hseg, hin⟩ | hle
  · left
    refine ⟨seg, hseg, ?_⟩
    rw [hout]
    exact hin.trans (List.prefix_append _ _).isInfix
  · right
    rw [hcursor]; exact hle

theorem forEach_preserves {α : Type} (step : State → α → Flow) (P : State → Prop)
    (xs : List α) : ∀ (st st2 : State),
    (∀ x ∈ xs, ∀ sa sb, P sa → step sa x = .next sb → P sb) →
    P st → forEach step st xs = .next st2 → P st2 := by
  induction xs with
  | nil =>
    intro st st2 _ hP h
    simp only [forEach, Flow.next.injEq] at h
    exact h ▸ hP
  | cons x xs ih =>
    intro st st2 hstep hP h
    simp only [forEach] at h
    cases hx : step st x with
    | next sb =>
      rw [hx] at h
      exact ih sb st2 (fun y hy => hstep y (List.mem_cons_of_mem _ hy))
        (hstep x (List.mem_cons_self _ _) st sb hP hx) h
    | stop sb => rw [hx] at h; simp [Flow.bind] at h
    | panic sb => rw [hx] at h; simp [Flow.bind] at h

theorem forEach_stop_elim {α : Type} (step : State → α → Flow) (xs : List α) :
    ∀ (st st3 : State), forEach step st xs = .stop st3 →
      ∃ x ∈ xs, ∃ sa, step sa x = .stop st3 := by
  induction xs with
  | nil => intro st st3 h; simp [forEach] at h
  | cons x xs ih =>
    intro st st3 h
    simp only [forEach] at h
    cases hx : step st x with
    | next sb =>
      rw [hx] at h
      obtain ⟨y, hy, sa, hsa⟩ := ih sb st3 h
      exact ⟨y, List.mem_cons_of_mem _ hy, sa, hsa⟩
    | stop sb =>
      rw [hx] at h
      simp only [Flow.bind, Flow.stop.injEq] at h
      exact ⟨x, List.mem_cons_self _ _, st, h ▸ hx⟩
    | panic sb => rw [hx] at h; simp [Flow.bind] at h

theorem commentStep_next (source tag : Bytes) (st st1 : State) (c : Comment)
    (h : commentStep source tag st c = .next st1) :
    st1 = st ∨ (isDirective tag c = true ∧
      ∃ piece, slice source st.lastWriteOffset ((c.Pos : Int) - 1) = some piece ∧
        st1.out = st.out ++ piece ++ [] ∧ st1.lastWriteOffset = (c.End : Int)) := by
  unfold commentStep at h
  split at h
  · rename_i hd
    right
    refine ⟨hd, ?_⟩
    rcases writeUpTo_cases source st c.Pos with ⟨seg, hseg, hw⟩ | ⟨_, hw⟩
    · rw [hw] at h
      simp only [Flow.bind, Flow.next.injEq] at h
      subst h
      exact ⟨seg, hseg, by simp, rfl⟩
    · rw [hw] at h; simp [Flow.bind] at h
  · left
    simp only [Flow.next.injEq] at h
    exact h.symm

theorem commentStep_ne_stop (source tag : Bytes) (st st3 : State) (c : Comment) :
    commentStep source tag st c ≠ .stop st3 := by
  unfold commentStep
  split
  · rcases writeUpTo_cases source st c.Pos with ⟨seg, _, hw⟩ | ⟨_, hw⟩ <;>
      simp [hw, Flow.bind]
  · simp

theorem commentsLoop_ne_stop (source tag : Bytes) (st st3 : State)
    (groups : List CommentGroup) : commentsLoop source tag st groups ≠ .stop st3 := by
  intro h
  obtain ⟨cg, _, sa, hsa⟩ := forEach_stop_elim _ _ _ _ h
  obtain ⟨c, _, sb, hsb⟩ := forEach_stop_elim _ _ _ _ hsa
  exact commentStep_ne_stop source tag sb st3 c hsb

theorem splice_next (source : Bytes) (st st1 : State) (c : Candidate) (replacement : Bytes)
    (h : splice source st c replacement = .next st1) :
    ∃ piece, slice source st.lastWriteOffset ((c.pos : Int) - 1) = some piece ∧
      st1.out = st.out ++ piece ++ replacement ∧ st1.lastWriteOffset = (c.endPos : Int) := by
  unfold splice at h
  rcases writeUpTo_cases source st c.pos with ⟨seg, hseg, hw⟩ | ⟨_, hw⟩
  · rw [hw] at h
    simp only [Flow.bind, Flow.next.injEq] at h
    subst h
    exact ⟨seg, hseg, rfl, rfl⟩
  · rw [hw] at h; simp [Flow.bind] at h

theorem dispatch_next (env : Env) (options : Options) (source : Bytes) (st st1 : State)
    (c : Candidate) (filename : Bytes)
    (h : dispatch env options source st c filename = .next st1) :
    ∃ piece replacement, slice source st.lastWriteOffset ((c.pos : Int) - 1) = some piece ∧
      st1.out = st.out ++ piece ++ replacement ∧ st1.lastWriteOffset = (c.endPos : Int) := by
  unfold dispatch at h
  split at h
  · split at h
    · simp at h
    · rename_i replacement _
      obtain ⟨piece, h1, h2, h3⟩ := splice_next _ _ _ _ _ h
      exact ⟨piece, replacement, h1, h2, h3⟩
  · split at h
    · split at h
      · simp at h
      · rename_i replacement _
        obtain ⟨piece, h1, h2, h3⟩ := splice_next _ _ _ _ _ h
        exact ⟨piece, replacement, h1, h2, h3⟩
    · simp at h

/-- A value after which the pass goes on is skipped, with the state as it was, or is a
placeholder call that was spliced: the source up to the call is copied, the replacement written,
the cursor set to the value of the call's `End()`. -/
theorem processValue_next (env : Env) (options : Options) (source : Bytes) (st st1 : State)
    (v : Expr) (h : processValue env options source st v = .next st1) :
    (candidate? v = none ∧ st1 = st) ∨
    ∃ c piece replacement, candidate? v = some c ∧
      slice source st.lastWriteOffset ((c.pos : Int) - 1) = some piece ∧
      st1.out = st.out ++ piece ++ replacement ∧ st1.lastWriteOffset = (c.endPos : Int) := by
  unfold processValue at h
  split at h
  · rename_i hc
    left
    simp only [Flow.next.injEq] at h
    exact ⟨hc, h.symm⟩
  · rename_i c hc
    right
    unfold processCandidate at h
    split at h
    · split at h
      · split at h
        · simp at h
        · split at h
          · simp at h
          · obtain ⟨piece, replacement, h1, h2, h3⟩ := dispatch_next _ _ _ _ _ _ _ h
            exact ⟨c, piece, replacement, hc, h1, h2, h3⟩
      · simp at h
    · simp at h

theorem inspectFile_stop (env : Env) (options : Options) (source : Bytes) (st st3 : State)
    (f : File) (h : inspectFile env options source st f = .stop st3) :
    ∃ msg, st3.inspectErr = some msg := by
  rw [inspectFile_eq] at h
  cases hc : commentsLoop source options.BuildTag st f.Comments with
  | next st1 =>
    rw [hc] at h
    simp only [Flow.bind] at h
    obtain ⟨v, _, sa, hsa⟩ := forEach_stop_elim _ _ _ _ h
    obtain ⟨c, msg, _, hmsg, _⟩ := processValue_stop _ _ _ _ _ _ hsa
    exact ⟨msg, hmsg⟩
  | stop sb => exact absurd hc (commentsLoop_ne_stop _ _ _ _ _)
  | panic sb => rw [hc] at h; simp [Flow.bind] at h

/-- When the pass hands a buffer to the formatter, every span `[s, e)` of the source that meets
none of the spans the pass skips (for a matching comment `[Pos-1, End)`, for a placeholder call
`[Pos-1, End)`, both with `End` taken as an offset) stands in that buffer, unchanged. -/
theorem span_reaches_buffer (env : Env) (options : Options) (source : Bytes) (f : File)
    (s e : Int) (out : Bytes) (st : State)
    (hspan : 0 ≤ s ∧ s ≤ e ∧ e ≤ (source.length : Int))
    (hcomments : ∀ cg ∈ f.Comments, ∀ c ∈ cg.List, isDirective options.BuildTag c = true →
      e ≤ (c.Pos : Int) - 1 ∨ (c.End : Int) ≤ s)
    (hcalls : ∀ u ∈ topLevelValues f.Decls, ∀ c, candidate? u = some c →
      e ≤ (c.pos : Int) - 1 ∨ (c.endPos : Int) ≤ s)
    (hbuffer : assemble env options source f = .buffer out st) :
    ∃ seg, slice source s e = some seg ∧ seg <:+: out := by
  have hinit : Kept source s e initialState := Or.inr hspan.1
  have hpass : ∀ st0, inspectFile env options source initialState f = .next st0 →
      Kept source s e st0 := by
    intro st0 h
    rw [inspectFile_eq] at h
    cases hc : commentsLoop source options.BuildTag initialState f.Comments with
    | next st1 =>
      rw [hc] at h
      simp only [Flow.bind] at h
      have h1 : Kept source s e st1 := by
        refine forEach_preserves _ (Kept source s e) f.Comments initialState st1 ?_ hinit hc
        intro cg hcg sa sb hsa hstep
        refine forEach_preserves _ (Kept source s e) cg.List sa sb ?_ hsa hstep
        intro c hcm sc sd hsc hcs
        rcases commentStep_next source _ sc sd c hcs with rfl | ⟨hd, piece, hp, ho, hl⟩
        · exact hsc
        · exact Kept_skip source s e _ _ sc sd piece [] hspan.2.1 hsc hp ho hl
            (hcomments cg hcg c hcm hd)
      have h2 : Kept source s e (afterTagLines options.BuildTag st1) :=
        Kept_append source s e st1 _ (negatedTagLines options.BuildTag) h1 rfl rfl
      refine forEach_preserves _ (Kept source s e) (topLevelValues f.Decls) _ st0 ?_ h2 h
      intro v hv sa sb hsa hstep
      rcases processValue_next _ _ _ _ _ _ hstep with ⟨_, rfl⟩ | ⟨c, piece, repl, hc2, hp, ho, hl⟩
      · exact hsa
      · exact Kept_skip source s e _ _ sa sb piece repl hspan.2.1 hsa hp ho hl (hcalls v hv c hc2)
    | stop sb => rw [hc] at h; simp [Flow.bind] at h
    | panic sb => rw [hc] at h; simp [Flow.bind] at h
  have hfinal : ∀ st0, Kept source s e st0 → ∀ tail,
      slice source st0.lastWriteOffset (source.length : Int) = some tail →
      ∃ seg, slice source s e = some seg ∧ seg <:+: st0.out ++ tail := by
    intro st0 hk tail ht
    rcases hk with ⟨seg, hseg, hin⟩ | hle
    · exact ⟨seg, hseg, hin.trans (List.prefix_append _ _).isInfix⟩
    · obtain ⟨seg, hseg, hin⟩ := slice_infix source _ _ s e tail ht hle hspan.2.1 hspan.2.2
      exact ⟨seg, hseg, hin.trans (List.suffix_append _ _).isInfix⟩
  unfold assemble at hbuffer
  split at hbuffer
  · simp at hbuffer
  · rename_i st0 hi
    split at hbuffer
    · simp at hbuffer
    · dsimp only at hbuffer
      split at hbuffer
      · simp at hbuffer
      · rename_i tail ht
        simp only [Assembled.buffer.injEq] at hbuffer
        rw [← hbuffer.1]
        exact hfinal st0 (hpass st0 hi) tail ht
  · rename_i st0 hi
    obtain ⟨msg, hmsg⟩ := inspectFile_stop _ _ _ _ _ _ hi
    rw [hmsg] at hbuffer
    simp at hbuffer

/-! ## Calls that are not placeholders -/

theorem candidate_none_of_shape (fn : Expr) (args : List Expr) (rparen : Nat)
    (hshape : (∀ p name sel, fn ≠ .selectorExpr (.ident p name) sel) ∨
      (∃ p name sel, fn = .selectorExpr (.ident p name) sel ∧ name ≠ ascii "include") ∨
      args.length ≠ 1) :
    candidate? (.callExpr fn args rparen) = none := by
  rcases hshape with h | ⟨p, name, sel, rfl, hname⟩ | h
  · unfold candidate?
    split
    · rename_i heq
      simp only [Expr.callExpr.injEq] at heq
      exact absurd heq.1 (h _ _ _)
    · rfl
  · simp [candidate?, hname]
  · unfold candidate?
    split
    · rename_i heq
      simp only [Expr.callExpr.injEq] at heq
      obtain ⟨_, rfl, _⟩ := heq
      split
      · rfl
      · split
        · simp at h
        · rfl
    · rfl

theorem assemble_congr (env : Env) (options : Options) (source : Bytes) (f f2 : File)
    (hcomments : f2.Comments = f.Comments)
    (hvalues : ∀ st, forEach (processValue env options source) st (topLevelValues f2.Decls)
      = forEach (processValue env options source) st (topLevelValues f.Decls)) :
    assemble env options source f2 = assemble env options source f := by
  have hi : inspectFile env options source initialState f2
      = inspectFile env options source initialState f := by
    rw [inspectFile_eq, inspectFile_eq, hcomments]
    congr 1
    funext st1
    exact hvalues _
  simp only [assemble, hi]

theorem forEach_without (env : Env) (options : Options) (source : Bytes) (v : Expr)
    (hskip : ∀ st, processValue env options source st v = .next st)
    (pre post : List Expr) (st : State) :
    forEach (processValue env options source) st (pre ++ v :: post)
      = forEach (processValue env options source) st (pre ++ post) := by
  rw [forEach_append, forEach_append]
  congr 1
  funext st1
  simp only [forEach, hskip, Flow.bind]

theorem assemble_parser_irrelevant (env : Env) (parse : Bytes → Bytes → Except Bytes File)
    (options : Options) (source : Bytes) (f : File) :
    assemble { env with parseFile := parse } options source f = assemble env options source f :=
  rfl

/-- C11 as amended (silent skip): a top-level initializer that is a call whose function is not a
two-part selector `ident.Name`, or whose receiver identifier is not `include`, or whose number
of arguments is not one, is not treated as a placeholder: handling it raises no error, reads no
file and leaves the cursor and the buffer as they are, so the pass ends as it does on the same
source without that site, and so does `Include`. When the pass hands a buffer to the formatter
and no byte of the call lies in a span the pass skips for a matching directive comment or for a
placeholder call, the bytes of the call stand in that buffer unchanged. -/
theorem silent_skip (env : Env) (options : Options) (source : Bytes) (fn : Expr)
    (args : List Expr) (rparen : Nat)
    (hshape : (∀ p name sel, fn ≠ .selectorExpr (.ident p name) sel) ∨
      (∃ p name sel, fn = .selectorExpr (.ident p name) sel ∧ name ≠ ascii "include") ∨
      args.length ≠ 1) :
    (∀ st, processValue env options source st (.callExpr fn args rparen) = .next st) ∧
    (∀ (f f2 : File) (pre post : List Expr), f2.Comments = f.Comments →
      topLevelValues f.Decls = pre ++ .callExpr fn args rparen :: post →
      topLevelValues f2.Decls = pre ++ post →
      assemble env options source f = assemble env options source f2 ∧
      ∀ (filename : Bytes) (options0 : Options), env.parseFile filename source = .ok f →
        Include env filename source options0
          = Include { env with parseFile := fun _ _ => .ok f2 } filename source options0) ∧
    (∀ (f : File) (out : Bytes) (st : State),
      assemble env options source f = .buffer out st →
      (0 ≤ ((Expr.callExpr fn args rparen).Pos : Int) - 1 ∧
        ((Expr.callExpr fn args rparen).Pos : Int) - 1 ≤ (rparen : Int) ∧
        (rparen : Int) ≤ (source.length : Int)) →
      (∀ cg ∈ f.Comments, ∀ c ∈ cg.List, isDirective options.BuildTag c = true →
        (rparen : Int) ≤ (c.Pos : Int) - 1 ∨
          (c.End : Int) ≤ ((Expr.callExpr fn args rparen).Pos : Int) - 1) →
      (∀ u ∈ topLevelValues f.Decls, ∀ c, candidate? u = some c →
        (rparen : Int) ≤ (c.pos : Int) - 1 ∨
          (c.endPos : Int) ≤ ((Expr.callExpr fn args rparen).Pos : Int) - 1) →
      ∃ seg, slice source (((Expr.callExpr fn args rparen).Pos : Int) - 1) (rparen : Int)
          = some seg ∧ seg <:+: out) := by
  have hnone := candidate_none_of_shape fn args rparen hshape
  have hskip : ∀ (o : Options) (st : State),
      processValue env o source st (.callExpr fn args rparen) = .next st := by
    intro o st
    simp only [processValue, hnone]
  refine ⟨hskip options, ?_, ?_⟩
  · intro f f2 pre post hcomments hvalues hvalues2
    have hcongr : ∀ o : Options, assemble env o source f = assemble env o source f2 := by
      intro o
      refine (assemble_congr env o source f f2 hcomments ?_).symm
      intro st
      rw [hvalues, hvalues2]
      exact (forEach_without env o source _ (hskip o) pre post st).symm
    refine ⟨hcongr options, ?_⟩
    intro filename options0 hparse
    simp only [Include, hparse, assemble_parser_irrelevant, hcongr]
    rfl
  · intro f out st hbuffer hspan hcomments hcalls
    exact span_reaches_buffer env options source f _ _ out st hspan hcomments hcalls hbuffer

/-- The skip of C11 on the source `package p\n\nvar x = foo(1)\n`, and the buffer of that source
with the bytes of the call in it. -/
theorem silent_skip_witness :
    ((∀ st, processValue (exampleEnv plainCallSource plainCallFile) (withDefaultTag noOptions)
        plainCallSource st (.callExpr (.ident 20 (ascii "foo")) [.basicLit 24 (ascii "1")] 25)
        = .next st) ∧
    (∀ (f f2 : File) (pre post : List Expr), f2.Comments = f.Comments →
      topLevelValues f.Decls
        = pre ++ .callExpr (.ident 20 (ascii "foo")) [.basicLit 24 (ascii "1")] 25 :: post →
      topLevelValues f2.Decls = pre ++ post →
      assemble (exampleEnv plainCallSource plainCallFile) (withDefaultTag noOptions)
          plainCallSource f
        = assemble (exampleEnv plainCallSource plainCallFile) (withDefaultTag noOptions)
            plainCallSource f2 ∧
      ∀ (filename : Bytes) (options0 : Options),
        (exampleEnv plainCallSource plainCallFile).parseFile filename plainCallSource = .ok f →
        Include (exampleEnv plainCallSource plainCallFile) filename plainCallSource options0
          = Include { exampleEnv plainCallSource plainCallFile with
              parseFile := fun _ _ => .ok f2 } filename plainCallSource options0) ∧
    (∀ (f : File) (out : Bytes) (st : State),
      assemble (exampleEnv plainCallSource plainCallFile) (withDefaultTag noOptions)
        plainCallSource f = .buffer out st →
      (0 ≤ ((Expr.callExpr (.ident 20 (ascii "foo")) [.basicLit 24 (ascii "1")] 25).Pos : Int) - 1 ∧
        ((Expr.callExpr (.ident 20 (ascii "foo")) [.basicLit 24 (ascii "1")] 25).Pos : Int) - 1
          ≤ ((25 : Nat) : Int) ∧
        ((25 : Nat) : Int) ≤ (plainCallSource.length : Int)) →
      (∀ cg ∈ f.Comments, ∀ c ∈ cg.List,
        isDirective (withDefaultTag noOptions).BuildTag c = true →
        ((25 : Nat) : Int) ≤ (c.Pos : Int) - 1 ∨
          (c.End : Int)
            ≤ ((Expr.callExpr (.ident 20 (ascii "foo")) [.basicLit 24 (ascii "1")] 25).Pos : Int)
              - 1) →
      (∀ u ∈ topLevelValues f.Decls, ∀ c, candidate? u = some c →
        ((25 : Nat) : Int) ≤ (c.pos : Int) - 1 ∨
          (c.endPos : Int)
            ≤ ((Expr.callExpr (.ident 20 (ascii "foo")) [.basicLit 24 (ascii "1")] 25).Pos : Int)
              - 1) →
      ∃ seg, slice plainCallSource
          (((Expr.callExpr (.ident 20 (ascii "foo")) [.basicLit 24 (ascii "1")] 25).Pos : Int) - 1)
          ((25 : Nat) : Int) = some seg ∧ seg <:+: out)) ∧
    slice plainCallSource 19 25 = some (ascii "foo(1)") ∧
    Include (exampleEnv plainCallSource plainCallFile) (ascii "p.go") plainCallSource noOptions
      = .returned (some (ascii ("//Code generated by include. DO NOT EDIT.\n\n" ++
          "//go:build !include\n// +build !include\n" ++ "package p\n\nvar x = foo(1)\n"))) none :=
  ⟨silent_skip (exampleEnv plainCallSource plainCallFile) (withDefaultTag noOptions)
    plainCallSource (.ident 20 (ascii "foo")) [.basicLit 24 (ascii "1")] 25
    (Or.inl (fun _ _ _ h => Expr.noConfusion h)), by decide, by decide⟩

/-- C11 as stated fails: in the source `package p\n\nvar x = foo(/* +build include */ 1)\n` the
top-level initializer is a call whose function is no selector; it is skipped, but the comment
between its parentheses matches a directive pattern and is removed, and the negated-tag lines are
written in its place: the bytes of the call do not stand unchanged in the assembled buffer. -/
theorem skipped_call_bytes_can_change :
    (exampleEnv commentInCallSource commentInCallFile).parseFile (ascii "p.go")
        commentInCallSource = .ok commentInCallFile ∧
    topLevelValues commentInCallFile.Decls
      = [.callExpr (.ident 20 (ascii "foo")) [.basicLit 45 (ascii "1")] 46] ∧
    slice commentInCallSource 19 46 = some (ascii "foo(/* +build include */ 1)") ∧
    slice commentInCallSource 23 43 = some (ascii "/* +build include */") ∧
    (∀ st, processValue (exampleEnv commentInCallSource commentInCallFile)
        (withDefaultTag noOptions) commentInCallSource st
        (.callExpr (.ident 20 (ascii "foo")) [.basicLit 45 (ascii "1")] 46) = .next st) ∧
    assemble (exampleEnv commentInCallSource commentInCallFile) (withDefaultTag noOptions)
        commentInCallSource commentInCallFile
      = .buffer
          (ascii ("//Code generated by include. DO NOT EDIT.\n\n" ++ "package p\n\nvar x = foo(" ++
            "//go:build !include\n// +build !include\n" ++ "1)\n"))
          { out := ascii ("//Code generated by include. DO NOT EDIT.\n\n" ++
              "package p\n\nvar x = foo(" ++ "//go:build !include\n// +build !include\n" ++
              "1)\n")
            lastWriteOffset := 44
            inspectErr := none
            reads := []
            slices := [(0, 23), (44, 47)] } ∧
    ¬ (ascii "foo(/* +build include */ 1)" <:+:
        ascii ("//Code generated by include. DO NOT EDIT.\n\n" ++ "package p\n\nvar x = foo(" ++
          "//go:build !include\n// +build !include\n" ++ "1)\n")) :=
  ⟨rfl, rfl, by decide, by decide, fun _ => rfl, by decide, by decide⟩

theorem Occurs_not_ident (p : Nat) (sel : Bytes) (arg : Expr) (rparen : Nat) (x : Expr)
    (h : Occurs (includeCall p sel arg rparen) x) : ∀ q name, x ≠ .ident q name := by
  intro q name
  cases h <;> simp [includeCall]

theorem candidate_none_of_nested (p : Nat) (sel : Bytes) (arg : Expr) (rparen : Nat) (v : Expr)
    (h : NestedSite (includeCall p sel arg rparen) v) : candidate? v = none := by
  cases h with
  | operand x y _ => rfl
  | packageArgument q pkg s args r hpkg _ =>
    exact candidate_none_of_shape _ _ _ (Or.inr (Or.inl ⟨q, pkg, s, rfl, hpkg⟩))
  | conversionArgument fn args r hfn _ =>
    exact candidate_none_of_shape _ _ _ (Or.inl (fun _ _ _ => hfn _ _))
  | receiver x s _ => rfl
  | method x s args r hx =>
    refine candidate_none_of_shape _ _ _ (Or.inl ?_)
    intro q name s2 heq
    simp only [Expr.selectorExpr.injEq] at heq
    exact Occurs_not_ident p sel arg rparen x hx q name heq.1

theorem commentStep_frame (source tag : Bytes) (st st1 : State) (c : Comment)
    (h : commentStep source tag st c = .next st1) :
    st1.inspectErr = st.inspectErr ∧ st1.reads = st.reads := by
  unfold commentStep at h
  split at h
  · rcases writeUpTo_cases source st c.Pos with ⟨seg, _, hw⟩ | ⟨_, hw⟩
    · rw [hw] at h
      simp only [Flow.bind, Flow.next.injEq] at h
      subst h
      exact ⟨rfl, rfl⟩
    · rw [hw] at h; simp [Flow.bind] at h
  · simp only [Flow.next.injEq] at h
    subst h
    exact ⟨rfl, rfl⟩

/-- A pass over a file none of whose top-level initializers is a placeholder call reads no file
and raises no error. -/
theorem assemble_without_placeholder (env : Env) (options : Options) (source : Bytes) (f : File)
    (hvalues : ∀ u ∈ topLevelValues f.Decls, candidate? u = none) :
    (∀ err st, assemble env options source f ≠ .failed err st) ∧
    (∀ out st, assemble env options source f = .buffer out st → st.reads = []) := by
  have hskip : ∀ u ∈ topLevelValues f.Decls, ∀ st,
      processValue env options source st u = .next st := by
    intro u hu st
    simp only [processValue, hvalues u hu]
  have hi : inspectFile env options source initialState f
      = (commentsLoop source options.BuildTag initialState f.Comments).bind
          (fun st1 => .next (afterTagLines options.BuildTag st1)) := by
    rw [inspectFile_eq]
    congr 1
    funext st1
    exact forEach_skip _ _ _ hskip
  have hclean : ∀ st1, commentsLoop source options.BuildTag initialState f.Comments = .next st1 →
      st1.inspectErr = none ∧ st1.reads = [] := by
    intro st1 h
    refine forEach_preserves _ (fun st => st.inspectErr = none ∧ st.reads = []) f.Comments
      initialState st1 ?_ ⟨rfl, rfl⟩ h
    intro cg _ sa sb hsa hstep
    refine forEach_preserves _ (fun st => st.inspectErr = none ∧ st.reads = []) cg.List
      sa sb ?_ hsa hstep
    intro c _ sc sd hsc hcs
    obtain ⟨h1, h2⟩ := commentStep_frame source _ sc sd c hcs
    exact ⟨h1.trans hsc.1, h2.trans hsc.2⟩
  cases hc : commentsLoop source options.BuildTag initialState f.Comments with
  | next st1 =>
    obtain ⟨herr, hreads⟩ := hclean st1 hc
    rw [hc] at hi
    simp only [Flow.bind] at hi
    have herr2 : (afterTagLines options.BuildTag st1).inspectErr = none := herr
    constructor
    · intro err st h
      simp only [assemble, hi, herr2] at h
      split at h <;> simp at h
    · intro out st h
      simp only [assemble, hi, herr2] at h
      split at h
      · simp at h
      · simp only [Assembled.buffer.injEq] at h
        rw [← h.2]
        exact hreads
  | stop sb => exact absurd hc (commentsLoop_ne_stop _ _ _ _ _)
  | panic sb =>
    rw [hc] at hi
    simp only [Flow.bind] at hi
    constructor
    · intro err st h
      simp only [assemble, hi] at h
      simp at h
    · intro out st h
      simp only [assemble, hi] at h
      simp at h

/-- C17 as amended (scope limitation): a call `include.<sel>(arg)` that stands in a top-level
initializer `v` as operand of a binary expression, as argument of a call to another package's
function or of a conversion, or as receiver of a further selector, is not matched: handling `v`
raises no error, reads no file and leaves the cursor and the buffer as they are; a function
declaration is skipped in the same way, so a call inside a function body is not matched
either; a pass over a file with no other placeholder call reads no file and raises no error.
When the pass hands a buffer to the formatter and no byte of the call lies in a span the pass
skips for a matching directive comment or for a placeholder call, the bytes of the call stand
in that buffer unchanged. -/
theorem scope_limitation (env : Env) (options : Options) (source : Bytes) (p : Nat)
    (sel : Bytes) (arg : Expr) (rparen : Nat) (v : Expr)
    (hsite : NestedSite (includeCall p sel arg rparen) v) :
    (∀ st, processValue env options source st v = .next st) ∧
    (∀ st, processDecl env options source st .otherDecl = .next st) ∧
    (∀ f : File, (∀ u ∈ topLevelValues f.Decls,
        u = v ∨ NestedSite (includeCall p sel arg rparen) u ∨ candidate? u = none) →
      (∀ err st, assemble env options source f ≠ .failed err st) ∧
      (∀ out st, assemble env options source f = .buffer out st → st.reads = [])) ∧
    (∀ (f : File) (out : Bytes) (st : State),
      assemble env options source f = .buffer out st →
      (0 ≤ (p : Int) - 1 ∧ (p : Int) - 1 ≤ (rparen : Int) ∧
        (rparen : Int) ≤ (source.length : Int)) →
      (∀ cg ∈ f.Comments, ∀ c ∈ cg.List, isDirective options.BuildTag c = true →
        (rparen : Int) ≤ (c.Pos : Int) - 1 ∨ (c.End : Int) ≤ (p : Int) - 1) →
      (∀ u ∈ topLevelValues f.Decls, ∀ c, candidate? u = some c →
        (rparen : Int) ≤ (c.pos : Int) - 1 ∨ (c.endPos : Int) ≤ (p : Int) - 1) →
      ∃ seg, slice source ((p : Int) - 1) (rparen : Int) = some seg ∧ seg <:+: out) := by
  have hnone := candidate_none_of_nested p sel arg rparen v hsite
  refine ⟨fun st => by simp only [processValue, hnone], fun st => rfl, ?_, ?_⟩
  · intro f hf
    refine assemble_without_placeholder env options source f ?_
    intro u hu
    rcases hf u hu with rfl | hn | h
    · exact hnone
    · exact candidate_none_of_nested p sel arg rparen u hn
    · exact h
  · intro f out st hbuffer hspan hcomments hcalls
    exact span_reaches_buffer env options source f _ _ out st hspan hcomments hcalls hbuffer

/-- The scope limitation of C17 on the source
`package p\n\nvar x = "a" + include.String("f")\n\nfunc g() string { return include.String("f") }\n`:
the buffer holds the whole source. -/
theorem scope_limitation_witness :
    ((∀ st, processValue (exampleEnv nestedCallSource nestedCallFile) (withDefaultTag noOptions)
        nestedCallSource st
        (.binaryExpr (.basicLit 20 (ascii "\"a\""))
          (includeCall 26 (ascii "String") (.basicLit 41 (ascii "\"f\"")) 44)) = .next st) ∧
    (∀ st, processDecl (exampleEnv nestedCallSource nestedCallFile) (withDefaultTag noOptions)
        nestedCallSource st .otherDecl = .next st) ∧
    (∀ f : File, (∀ u ∈ topLevelValues f.Decls,
        u = .binaryExpr (.basicLit 20 (ascii "\"a\""))
            (includeCall 26 (ascii "String") (.basicLit 41 (ascii "\"f\"")) 44) ∨
          NestedSite (includeCall 26 (ascii "String") (.basicLit 41 (ascii "\"f\"")) 44) u ∨
          candidate? u = none) →
      (∀ err st, assemble (exampleEnv nestedCallSource nestedCallFile) (withDefaultTag noOptions)
        nestedCallSource f ≠ .failed err st) ∧
      (∀ out st, assemble (exampleEnv nestedCallSource nestedCallFile) (withDefaultTag noOptions)
        nestedCallSource f = .buffer out st → st.reads = [])) ∧
    (∀ (f : File) (out : Bytes) (st : State),
      assemble (exampleEnv nestedCallSource nestedCallFile) (withDefaultTag noOptions)
        nestedCallSource f = .buffer out st →
      (0 ≤ ((26 : Nat) : Int) - 1 ∧ ((26 : Nat) : Int) - 1 ≤ ((44 : Nat) : Int) ∧
        ((44 : Nat) : Int) ≤ (nestedCallSource.length : Int)) →
      (∀ cg ∈ f.Comments, ∀ c ∈ cg.List,
        isDirective (withDefaultTag noOptions).BuildTag c = true →
        ((44 : Nat) : Int) ≤ (c.Pos : Int) - 1 ∨ (c.End : Int) ≤ ((26 : Nat) : Int) - 1) →
      (∀ u ∈ topLevelValues f.Decls, ∀ c, candidate? u = some c →
        ((44 : Nat) : Int) ≤ (c.pos : Int) - 1 ∨ (c.endPos : Int) ≤ ((26 : Nat) : Int) - 1) →
      ∃ seg, slice nestedCallSource (((26 : Nat) : Int) - 1) ((44 : Nat) : Int) = some seg ∧
        seg <:+: out)) ∧
    slice nestedCallSource 25 44 = some (ascii "include.String(\"f\")") ∧
    Include (exampleEnv nestedCallSource nestedCallFile) (ascii "p.go") nestedCallSource noOptions
      = .returned (some (ascii ("//Code generated by include. DO NOT EDIT.\n\n" ++
          "//go:build !include\n// +build !include\n" ++
          "package p\n\nvar x = \"a\" + include.String(\"f\")\n\n" ++
          "func g() string \x7b return include.String(\"f\") \x7d\n"))) none :=
  ⟨scope_limitation (exampleEnv nestedCallSource nestedCallFile) (withDefaultTag noOptions)
    nestedCallSource 26 (ascii "String") (.basicLit 41 (ascii "\"f\"")) 44
    (.binaryExpr (.basicLit 20 (ascii "\"a\""))
      (includeCall 26 (ascii "String") (.basicLit 41 (ascii "\"f\"")) 44))
    (NestedSite.operand _ _ (Or.inr Occurs.here)), by decide, by decide⟩

/-- C17 as stated fails: in the source
`package p\n\nvar x = "a" + include.String(/* +build include */ "f")\n` the placeholder call
occurs only as operand of a binary expression; it is not matched, no file is read and no error
raised, but the comment between its parentheses matches a directive pattern and is removed, and
the negated-tag lines are written in its place: the bytes of the call do not stand unchanged in
the assembled buffer. -/
theorem nested_call_bytes_can_change :
    (exampleEnv commentInNestedSource commentInNestedFile).parseFile (ascii "p.go")
        commentInNestedSource = .ok commentInNestedFile ∧
    topLevelValues commentInNestedFile.Decls
      = [.binaryExpr (.basicLit 20 (ascii "\"a\""))
          (includeCall 26 (ascii "String") (.basicLit 62 (ascii "\"f\"")) 65)] ∧
    slice commentInNestedSource 25 65
      = some (ascii "include.String(/* +build include */ \"f\")") ∧
    slice commentInNestedSource 40 60 = some (ascii "/* +build include */") ∧
    assemble (exampleEnv commentInNestedSource commentInNestedFile) (withDefaultTag noOptions)
        commentInNestedSource commentInNestedFile
      = .buffer
          (ascii ("//Code generated by include. DO NOT EDIT.\n\n" ++
            "package p\n\nvar x = \"a\" + include.String(" ++
            "//go:build !include\n// +build !include\n" ++ "\"f\")\n"))
          { out := ascii ("//Code generated by include. DO NOT EDIT.\n\n" ++
              "package p\n\nvar x = \"a\" + include.String(" ++
              "//go:build !include\n// +build !include\n" ++ "\"f\")\n")
            lastWriteOffset := 61
            inspectErr := none
            reads := []
            slices := [(0, 40), (61, 66)] } ∧
    ¬ (ascii "include.String(/* +build include */ \"f\")" <:+:
        ascii ("//Code generated by include. DO NOT EDIT.\n\n" ++
          "package p\n\nvar x = \"a\" + include.String(" ++
          "//go:build !include\n// +build !include\n" ++ "\"f\")\n")) :=
  ⟨rfl, rfl, by decide, by decide, by decide, by decide⟩

/-! ## Failing calls behind a fault -/

/-- C9 (unsupported selector rejection) does not hold of the code: in the source
`package p\n\nvar x = include.String("f")\n\n//go:generate include\nvar y = include.Foo("x.txt")\n`
the first call is valid and its file is read, so the first failing placeholder is
`include.Foo("x.txt")`, which handled from any state stops the pass with
`unsupported function call include.Foo in x.txt`. But the pass over the comments has moved the
cursor to 62 before the first call, at offset 19, is spliced: the slice `source[62:19]` faults
and `Include` returns no unsupported-function error. -/
theorem fault_before_unsupported_selector :
    (exampleEnv hiddenSelectorSource hiddenSelectorFile).parseFile (ascii "p.go")
        hiddenSelectorSource = .ok hiddenSelectorFile ∧
    topLevelValues hiddenSelectorFile.Decls
      = [includeCall 20 (ascii "String") (.basicLit 35 (ascii "\"f\"")) 38,
         includeCall 71 (ascii "Foo") (.basicLit 83 (ascii "\"x.txt\"")) 90] ∧
    slice hiddenSelectorSource 19 38 = some (ascii "include.String(\"f\")") ∧
    slice hiddenSelectorSource 40 61 = some (ascii "//go:generate include") ∧
    slice hiddenSelectorSource 70 90 = some (ascii "include.Foo(\"x.txt\")") ∧
    fileContentAsString (exampleEnv hiddenSelectorSource hiddenSelectorFile) (ascii "f")
      (withDefaultTag noOptions) = .ok (ascii "\x60hello\x60") ∧
    (∀ st, processValue (exampleEnv hiddenSelectorSource hiddenSelectorFile)
        (withDefaultTag noOptions) hiddenSelectorSource st
        (includeCall 71 (ascii "Foo") (.basicLit 83 (ascii "\"x.txt\"")) 90)
      = .stop { st with
          inspectErr := some (ascii "unsupported function call include.Foo in x.txt") }) ∧
    assemble (exampleEnv hiddenSelectorSource hiddenSelectorFile) (withDefaultTag noOptions)
        hiddenSelectorSource hiddenSelectorFile
      = .panicked
          { out := ascii ("//Code generated by include. DO NOT EDIT.\n\n" ++
              "package p\n\nvar x = include.String(\"f\")\n\n" ++
              "//go:build !include\n// +build !include\n")
            lastWriteOffset := 62
            inspectErr := none
            reads := [ascii "f"]
            slices := [(0, 40), (62, 19)] } ∧
    Include (exampleEnv hiddenSelectorSource hiddenSelectorFile) (ascii "p.go")
        hiddenSelectorSource noOptions = .panicked :=
  ⟨rfl, rfl, by decide, by decide, by decide, rfl, fun _ => rfl, by decide, by decide⟩

/-- C12 (first-error-only atomicity) does not hold of the code: in the source
`package p\n\nvar x = include.Bytes("f")\n\n// +build include\nvar y = include.String(someVar)\n`
one placeholder call fails, `include.String(someVar)`, which handled from any state stops the
pass with the unsupported-argument error; the call before it is valid and its file is read.
But the pass over the comments has moved the cursor to 57 before the first call, at offset 19,
is spliced: the slice `source[57:19]` faults and `Include` returns neither the error of the
failing call nor anything else. -/
theorem fault_before_first_error :
    (exampleEnv hiddenArgumentSource hiddenArgumentFile).parseFile (ascii "p.go")
        hiddenArgumentSource = .ok hiddenArgumentFile ∧
    topLevelValues hiddenArgumentFile.Decls
      = [includeCall 20 (ascii "Bytes") (.basicLit 34 (ascii "\"f\"")) 37,
         includeCall 66 (ascii "String") (.ident 81 (ascii "someVar")) 88] ∧
    slice hiddenArgumentSource 19 37 = some (ascii "include.Bytes(\"f\")") ∧
    slice hiddenArgumentSource 39 56 = some (ascii "// +build include") ∧
    slice hiddenArgumentSource 65 88 = some (ascii "include.String(someVar)") ∧
    fileContentAsBytes (exampleEnv hiddenArgumentSource hiddenArgumentFile) (ascii "f")
      (withDefaultTag noOptions) = .ok (ascii "[]byte\x7b\n104,101,108,108,111,\n\x7d\n") ∧
    (∀ st, processValue (exampleEnv hiddenArgumentSource hiddenArgumentFile)
        (withDefaultTag noOptions) hiddenArgumentSource st
        (includeCall 66 (ascii "String") (.ident 81 (ascii "someVar")) 88)
      = .stop { st with
          inspectErr := some (ascii ("unsupported argument when calling include.String in : " ++
            "only strings are supported")) }) ∧
    assemble (exampleEnv hiddenArgumentSource hiddenArgumentFile) (withDefaultTag noOptions)
        hiddenArgumentSource hiddenArgumentFile
      = .panicked
          { out := ascii ("//Code generated by include. DO NOT EDIT.\n\n" ++
              "package p\n\nvar x = include.Bytes(\"f\")\n\n" ++
              "//go:build !include\n// +build !include\n")
            lastWriteOffset := 57
            inspectErr := none
            reads := [ascii "f"]
            slices := [(0, 39), (57, 19)] } ∧
    Include (exampleEnv hiddenArgumentSource hiddenArgumentFile) (ascii "p.go")
        hiddenArgumentSource noOptions = .panicked ∧
    Include (exampleEnv hiddenArgumentSource hiddenArgumentFile) (ascii "p.go")
        hiddenArgumentSource noOptions
      ≠ .returned none (some (ascii ("unsupported argument when calling include.String in : " ++
          "only strings are supported"))) :=
  ⟨rfl, rfl, by decide, by decide, by decide, rfl, fun _ => rfl, by decide, by decide,
    by decide⟩

end GoInclude
